import Mathlib

/-!
# Verification of the Infra-mind observability core

Shallow embedding of the three core services of the repository:

* `app/services/metric_service.py` — the per-resource time-series store
  (binary-search insertion, retention trim, window query);
* `app/services/anomaly_service.py` — the z-score anomaly detector;
* `app/services/sla_risk_service.py` — the weighted SLA risk scorer.

Timestamps are modelled as rationals (minutes on an absolute clock);
metric values and thresholds are rationals (the Python floats carry exact
decimal inputs in every scenario the spec discusses); the analytic layer
(standard deviation, z-scores, confidence, risk score) lives in `ℝ`
because the source takes a real square root.  Python `round(x, 3)` is
modelled as round-half-to-even at 3 decimals.
-/

namespace InfraMind

/-- One metric sample, mirroring `MetricEntry` of `metric_service.py`
(timezone normalisation is identity in this model: a timestamp is already
an absolute instant). -/
structure MetricEntry where
  resource_id : String
  cpu_usage : ℚ
  memory_usage : ℚ
  gpu_usage : ℚ
  timestamp : ℚ
  deriving Repr, DecidableEq

instance : Inhabited MetricEntry :=
  ⟨{ resource_id := "", cpu_usage := 0, memory_usage := 0, gpu_usage := 0, timestamp := 0 }⟩

/-- `MAX_ENTRIES_PER_RESOURCE` of `metric_service.py`. -/
def MAX_ENTRIES_PER_RESOURCE : ℕ := 10000

/-- The `while left < right` loop of `_find_insertion_index`. -/
def findInsertionLoop (entries : List MetricEntry) (timestamp : ℚ) (left right : ℕ) : ℕ :=
  if _h : left < right then
    let mid := (left + right) / 2
    if (entries.getD mid default).timestamp ≤ timestamp then
      findInsertionLoop entries timestamp (mid + 1) right
    else
      findInsertionLoop entries timestamp left mid
  else
    left
termination_by right - left
decreasing_by
  · have : left ≤ (left + right) / 2 := Nat.le_div_iff_mul_le (by norm_num) |>.mpr (by omega)
    omega
  · have : (left + right) / 2 < right := Nat.div_lt_iff_lt_mul (by norm_num) |>.mpr (by omega)
    omega

/-- `_find_insertion_index` of `metric_service.py`: binary search for the
rightmost insertion position for `timestamp` (duplicates go after existing
entries with the same timestamp). -/
def findInsertionIndex (entries : List MetricEntry) (timestamp : ℚ) : ℕ :=
  findInsertionLoop entries timestamp 0 entries.length

/-- The `while left < right` loop of `_find_cutoff_index`. -/
def findCutoffLoop (entries : List MetricEntry) (cutoff : ℚ) (left right : ℕ) : ℕ :=
  if _h : left < right then
    let mid := (left + right) / 2
    if (entries.getD mid default).timestamp < cutoff then
      findCutoffLoop entries cutoff (mid + 1) right
    else
      findCutoffLoop entries cutoff left mid
  else
    left
termination_by right - left
decreasing_by
  · have : left ≤ (left + right) / 2 := Nat.le_div_iff_mul_le (by norm_num) |>.mpr (by omega)
    omega
  · have : (left + right) / 2 < right := Nat.div_lt_iff_lt_mul (by norm_num) |>.mpr (by omega)
    omega

/-- `_find_cutoff_index` of `metric_service.py`: binary search for the first
index whose timestamp is `≥ cutoff`. -/
def findCutoffIndex (entries : List MetricEntry) (cutoff : ℚ) : ℕ :=
  findCutoffLoop entries cutoff 0 entries.length

/-- The body of `MetricService.add_metric` acting on one resource's list,
with the retention capacity `nmax` explicit: append when chronological,
binary-search insert when out of order, then trim to the most recent
`nmax` entries. -/
def addToEntries (nmax : ℕ) (entries : List MetricEntry) (metric : MetricEntry) :
    List MetricEntry :=
  let inserted :=
    if entries = [] ∨ (entries.getLastD default).timestamp ≤ metric.timestamp then
      entries ++ [metric]
    else
      entries.insertIdx (findInsertionIndex entries metric.timestamp) metric
  if nmax < inserted.length then inserted.drop (inserted.length - nmax) else inserted

/-- The store: one entry list per resource identifier
(`MetricService._store`, total with default `[]`). -/
def Store := String → List MetricEntry

/-- The empty store of a fresh `MetricService`. -/
def Store.empty : Store := fun _ => []

/-- `resource_id` validation shared by every service entry point:
`not resource_id or not resource_id.strip()` — the identifier is rejected
iff it is empty or consists solely of whitespace, which is exactly "every
character is whitespace". -/
def blankId (resource_id : String) : Bool :=
  resource_id.data.all fun c => c.isWhitespace

/-- The single error kind raised by the services (`ValueError` in Python,
`InvalidArgument` in the spec's vocabulary). -/
inductive ServiceError where
  | invalidArgument
  deriving Repr, DecidableEq

/-- `MetricService.add_metric`: validate, then insert into the resource's
list and trim.  Returns the updated store. -/
def add_metric (s : Store) (metric : MetricEntry) : Except ServiceError Store :=
  if blankId metric.resource_id then
    .error .invalidArgument
  else
    .ok (fun rid =>
      if rid = metric.resource_id then
        addToEntries MAX_ENTRIES_PER_RESOURCE (s metric.resource_id) metric
      else s rid)

/-- `MetricService.get_latest_metric`. -/
def get_latest_metric (s : Store) (resource_id : String) :
    Except ServiceError (Option MetricEntry) :=
  if blankId resource_id then
    .error .invalidArgument
  else
    .ok (s resource_id).getLast?

/-- The unvalidated core of `get_metrics_last_n_minutes`: cutoff is
`now - minutes`, and the returned slice is `entries[start_idx:]`. -/
def windowFrom (entries : List MetricEntry) (now : ℚ) (minutes : ℤ) : List MetricEntry :=
  if entries = [] then []
  else entries.drop (findCutoffIndex entries (now - (minutes : ℚ)))

/-- `MetricService.get_metrics_last_n_minutes`: validate, then return all
entries of the last `minutes` minutes (`now` is the wall clock the Python
code reads via `datetime.now`). -/
def get_metrics_last_n_minutes (s : Store) (now : ℚ) (resource_id : String) (minutes : ℤ) :
    Except ServiceError (List MetricEntry) :=
  if blankId resource_id then
    .error .invalidArgument
  else if minutes ≤ 0 then
    .error .invalidArgument
  else
    .ok (windowFrom (s resource_id) now minutes)

/-! ## Anomaly detection (`anomaly_service.py`) -/

open scoped Classical

/-- `AnomalyStatus` of `anomaly_service.py`. -/
inductive AnomalyStatus where
  | OK
  | ANOMALY
  | INSUFFICIENT_DATA
  deriving Repr, DecidableEq

/-- `AnomalyResult` (the `explanation` string and constant `algorithm` tag,
which are derived presentation of the same data, are not modelled). -/
structure AnomalyResult where
  status : AnomalyStatus
  anomaly_detected : Bool
  anomaly_metrics : List String
  confidence_score : ℝ

/-- Python `round` at integer precision: round half to even. -/
noncomputable def roundHalfEven (x : ℝ) : ℤ :=
  if Int.fract x < 1 / 2 then ⌊x⌋
  else if 1 / 2 < Int.fract x then ⌊x⌋ + 1
  else if 2 ∣ ⌊x⌋ then ⌊x⌋ else ⌊x⌋ + 1

/-- Python `round(x, 3)`. -/
noncomputable def roundTo3 (x : ℝ) : ℝ :=
  (roundHalfEven (x * 1000) : ℝ) / 1000

/-- Rational mirror of `roundHalfEven`, for evaluating concrete cases. -/
def roundHalfEvenQ (q : ℚ) : ℤ :=
  if Int.fract q < 1 / 2 then ⌊q⌋
  else if 1 / 2 < Int.fract q then ⌊q⌋ + 1
  else if 2 ∣ ⌊q⌋ then ⌊q⌋ else ⌊q⌋ + 1

/-- Rational mirror of `roundTo3`. -/
def roundTo3Q (q : ℚ) : ℚ :=
  (roundHalfEvenQ (q * 1000) : ℚ) / 1000

/-- `_calculate_mean` of `anomaly_service.py`. -/
def _calculate_mean (values : List ℚ) : ℚ :=
  if values = [] then 0 else values.sum / values.length

/-- `_calculate_sample_std`: sample standard deviation with Bessel's
correction (`n - 1` denominator), `0` when fewer than two values. -/
noncomputable def _calculate_sample_std (values : List ℚ) (mean : ℚ) : ℝ :=
  if values.length < 2 then 0
  else Real.sqrt
    (((values.map fun x => (x - mean) ^ 2).sum / ((values.length : ℚ) - 1) : ℚ) : ℝ)

/-- `_calculate_z_score`: `0` when `std = 0`, else `|value - mean| / std`. -/
noncomputable def _calculate_z_score (value mean : ℚ) (std : ℝ) : ℝ :=
  if std = 0 then 0 else |(value : ℝ) - (mean : ℝ)| / std

/-- `_z_score_to_confidence`: `0` at or below threshold, else
`min((z - threshold) / threshold, 1)` rounded to 3 decimals. -/
noncomputable def _z_score_to_confidence (z_score : ℝ) (threshold : ℚ) : ℝ :=
  if z_score ≤ (threshold : ℝ) then 0
  else roundTo3 (min ((z_score - (threshold : ℝ)) / (threshold : ℝ)) 1)

/-- The three analysed metric fields, in the iteration order of the Python
`for metric_name in ["cpu_usage", "memory_usage", "gpu_usage"]` loop. -/
def metricFields : List (String × (MetricEntry → ℚ)) :=
  [("cpu_usage", fun m => m.cpu_usage),
   ("memory_usage", fun m => m.memory_usage),
   ("gpu_usage", fun m => m.gpu_usage)]

/-- The z-score the detector computes for one metric field: baseline mean
and sample standard deviation over the window, z-score of the latest
value. -/
noncomputable def windowZScore (window : List MetricEntry) (latest : MetricEntry)
    (f : MetricEntry → ℚ) : ℝ :=
  let values := window.map f
  let mean := _calculate_mean values
  let std := _calculate_sample_std values mean
  _calculate_z_score (f latest) mean std

/-- `INSUFFICIENT_DATA` result shared by the two early returns of
`detect_anomaly`. -/
def insufficientDataResult : AnomalyResult :=
  { status := .INSUFFICIENT_DATA
    anomaly_detected := false
    anomaly_metrics := []
    confidence_score := 0 }

/-- The body of `detect_anomaly` after validation, acting on the list of
metrics of the last 60 minutes. -/
noncomputable def detectCore (all_metrics : List MetricEntry) (window_size : ℤ)
    (z_threshold : ℚ) : AnomalyResult :=
  if all_metrics = [] then insufficientDataResult
  else if all_metrics.length < window_size.toNat + 1 then insufficientDataResult
  else
    let latest := all_metrics.getLastD default
    let window := (all_metrics.drop (all_metrics.length - (window_size.toNat + 1))).dropLast
    let anomalous := metricFields.filter fun p =>
      if (z_threshold : ℝ) < windowZScore window latest p.2 then true else false
    let anomalies := anomalous.map fun p => p.1
    if anomalies = [] then
      { status := .OK
        anomaly_detected := false
        anomaly_metrics := []
        confidence_score := 0 }
    else
      let max_z := ((anomalous.map fun p => windowZScore window latest p.2).max?).getD 0
      { status := .ANOMALY
        anomaly_detected := true
        anomaly_metrics := anomalies
        confidence_score := _z_score_to_confidence max_z z_threshold }

/-- `detect_anomaly` of `anomaly_service.py` (defaults `window_size = 10`,
`z_threshold = 2.0`; the 60-minute lookback is fixed in the source). -/
noncomputable def detect_anomaly (s : Store) (now : ℚ) (resource_id : String)
    (window_size : ℤ) (z_threshold : ℚ) : Except ServiceError AnomalyResult :=
  if blankId resource_id then .error .invalidArgument
  else if window_size < 2 then .error .invalidArgument
  else if z_threshold ≤ 0 then .error .invalidArgument
  else .ok (detectCore (windowFrom (s resource_id) now 60) window_size z_threshold)

/-! ## SLA risk scoring (`sla_risk_service.py`) -/

/-- `RiskStatus` of `sla_risk_service.py`. -/
inductive RiskStatus where
  | OK
  | INSUFFICIENT_DATA
  deriving Repr, DecidableEq

/-- `RiskLevel` of `sla_risk_service.py`. -/
inductive RiskLevel where
  | LOW
  | MEDIUM
  | HIGH
  deriving Repr, DecidableEq

/-- `RiskSignal` of `sla_risk_service.py`. -/
structure RiskSignal where
  name : String
  value : ℝ
  weight : ℝ
  contribution : ℝ

/-- `SLARiskResult` (the `explanation` string, derived presentation of the
same data, is not modelled). -/
structure SLARiskResult where
  status : RiskStatus
  resource_id : String
  risk_score : ℝ
  risk_level : RiskLevel
  signals : List RiskSignal

/-- `_calculate_threshold_breach_rate`: fraction of the `3 × count`
individual (metric, sample) checks that exceed their threshold. -/
def _calculate_threshold_breach_rate (metrics : List MetricEntry)
    (cpu_threshold memory_threshold gpu_threshold : ℚ) : ℚ :=
  if metrics = [] then 0
  else
    let cpu_breaches := metrics.countP fun m => cpu_threshold < m.cpu_usage
    let memory_breaches := metrics.countP fun m => memory_threshold < m.memory_usage
    let gpu_breaches := metrics.countP fun m => gpu_threshold < m.gpu_usage
    let total_checks := metrics.length * 3
    ((cpu_breaches + memory_breaches + gpu_breaches : ℕ) : ℚ) / (total_checks : ℚ)

/-- `compute_sla_risk` of `sla_risk_service.py` (defaults
`lookback_minutes = 10`, thresholds `80 / 85 / 90`; the inner
`detect_anomaly` call uses the detector defaults `10` and `2.0`). -/
noncomputable def compute_sla_risk (s : Store) (now : ℚ) (resource_id : String)
    (lookback_minutes : ℤ) (cpu_threshold memory_threshold gpu_threshold : ℚ) :
    Except ServiceError SLARiskResult :=
  if blankId resource_id then .error .invalidArgument
  else if lookback_minutes ≤ 0 then .error .invalidArgument
  else
    let metrics := windowFrom (s resource_id) now lookback_minutes
    if metrics = [] then
      .ok { status := .INSUFFICIENT_DATA
            resource_id := resource_id
            risk_score := 0
            risk_level := .LOW
            signals := [] }
    else
      let anomaly_result := detectCore (windowFrom (s resource_id) now 60) 10 2
      let anomaly_score : ℝ :=
        if anomaly_result.status = .ANOMALY then anomaly_result.confidence_score else 0
      let anomaly_contribution := anomaly_score * 0.4
      let breach_rate :=
        _calculate_threshold_breach_rate metrics cpu_threshold memory_threshold gpu_threshold
      let breach_contribution := (breach_rate : ℝ) * 0.6
      let risk_score := roundTo3 (min (anomaly_contribution + breach_contribution) 1)
      let risk_level : RiskLevel :=
        if risk_score < 0.3 then .LOW else if risk_score < 0.6 then .MEDIUM else .HIGH
      .ok { status := .OK
            resource_id := resource_id
            risk_score := risk_score
            risk_level := risk_level
            signals :=
              [{ name := "anomaly_presence"
                 value := roundTo3 anomaly_score
                 weight := 0.4
                 contribution := roundTo3 anomaly_contribution },
               { name := "threshold_breach_rate"
                 value := roundTo3 (breach_rate : ℝ)
                 weight := 0.6
                 contribution := roundTo3 breach_contribution }] }

/-! ## Operational view of the service API

The services are process-wide singletons over one shared store; `step`
gives the sequential semantics of one API call against the current state
(store plus wall clock).  Read operations return their result and leave
the state untouched; `add` updates the store. -/

/-- System state: the shared store and the wall clock. -/
structure SysState where
  store : Store
  now : ℚ

/-- One API call of the core. -/
inductive Op where
  | add (metric : MetricEntry)
  | latest (resource_id : String)
  | window (resource_id : String) (minutes : ℤ)
  | detect (resource_id : String) (window_size : ℤ) (z_threshold : ℚ)
  | risk (resource_id : String) (lookback_minutes : ℤ)
      (cpu_threshold memory_threshold gpu_threshold : ℚ)

/-- The outcome of one API call. -/
inductive Out where
  | unit
  | latestEntry (m : Option MetricEntry)
  | entries (l : List MetricEntry)
  | anomaly (r : AnomalyResult)
  | riskResult (r : SLARiskResult)
  | err (e : ServiceError)

/-- Sequential semantics of one API call. -/
noncomputable def step (st : SysState) (op : Op) : SysState × Out :=
  match op with
  | .add m =>
      match add_metric st.store m with
      | .ok s2 => ({ st with store := s2 }, .unit)
      | .error e => (st, .err e)
  | .latest rid =>
      (st, match get_latest_metric st.store rid with
        | .ok v => .latestEntry v
        | .error e => .err e)
  | .window rid minutes =>
      (st, match get_metrics_last_n_minutes st.store st.now rid minutes with
        | .ok l => .entries l
        | .error e => .err e)
  | .detect rid ws zt =>
      (st, match detect_anomaly st.store st.now rid ws zt with
        | .ok r => .anomaly r
        | .error e => .err e)
  | .risk rid lb ct mt gt =>
      (st, match compute_sla_risk st.store st.now rid lb ct mt gt with
        | .ok r => .riskResult r
        | .error e => .err e)

/-- The argument-validation predicate of the spec, per operation: blank
resource identifier everywhere; non-positive minutes for `window` and
`computeRisk`; `window_size < 2` or `z_threshold ≤ 0` for
`detectAnomaly`. -/
def invalidArgs : Op → Prop
  | .add m => blankId m.resource_id
  | .latest rid => blankId rid
  | .window rid minutes => blankId rid ∨ minutes ≤ 0
  | .detect rid ws zt => blankId rid ∨ ws < 2 ∨ zt ≤ 0
  | .risk rid lb _ _ _ => blankId rid ∨ lb ≤ 0

/-- The read-only operations. -/
def isRead : Op → Prop
  | .add _ => False
  | _ => True

/-! ## Specification-side ordering model

`stableInsert` places a sample after every existing sample whose timestamp
is `≤` its own — the insertion discipline the spec describes.
`sortByTime` is the stable insertion sort obtained by folding it over the
insertion sequence, and `lastN` keeps the `n` most recent entries.  These
are the reference definitions the store is compared against. -/

/-- Timestamp order on samples. -/
def tsLE (a b : MetricEntry) : Prop := a.timestamp ≤ b.timestamp

instance : DecidableRel tsLE :=
  fun a b => inferInstanceAs (Decidable (a.timestamp ≤ b.timestamp))

/-- Insert a sample after all samples with timestamp `≤` its own. -/
def stableInsert (e : MetricEntry) : List MetricEntry → List MetricEntry
  | [] => [e]
  | b :: l => if e.timestamp < b.timestamp then e :: b :: l else b :: stableInsert e l

/-- Stable insertion sort by timestamp, in insertion order. -/
def sortByTime (l : List MetricEntry) : List MetricEntry :=
  l.foldl (fun acc e => stableInsert e acc) []

/-- The `n` most recent entries of a chronologically sorted list. -/
def lastN (n : ℕ) (l : List MetricEntry) : List MetricEntry :=
  l.drop (l.length - n)

/-- Folding the store's `add` over an insertion sequence, from the empty
series, with capacity `n`. -/
def addAll (n : ℕ) (l : List MetricEntry) : List MetricEntry :=
  l.foldl (addToEntries n) []

theorem stableInsert_length (e : MetricEntry) (l : List MetricEntry) :
    (stableInsert e l).length = l.length + 1 := by
  induction l with
  | nil => rfl
  | cons b l ih =>
    by_cases h : e.timestamp < b.timestamp <;> simp [stableInsert, h, ih]

theorem mem_stableInsert {x e : MetricEntry} {l : List MetricEntry} :
    x ∈ stableInsert e l ↔ x = e ∨ x ∈ l := by
  induction l with
  | nil => simp [stableInsert]
  | cons b l ih =>
    by_cases h : e.timestamp < b.timestamp
    · simp [stableInsert, h]
    · simp [stableInsert, h, ih]
      tauto

theorem stableInsert_sorted {e : MetricEntry} {l : List MetricEntry}
    (hs : l.Sorted tsLE) : (stableInsert e l).Sorted tsLE := by
  induction l with
  | nil => simp [stableInsert]
  | cons b l ih =>
    rw [List.sorted_cons] at hs
    by_cases h : e.timestamp < b.timestamp
    · rw [stableInsert, if_pos h]
      refine List.sorted_cons.mpr ⟨?_, List.sorted_cons.mpr hs⟩
      intro x hx
      rcases List.mem_cons.mp hx with rfl | hx
      · exact le_of_lt h
      · exact le_trans (le_of_lt h) (hs.1 x hx)
    · rw [stableInsert, if_neg h]
      refine List.sorted_cons.mpr ⟨?_, ih hs.2⟩
      intro x hx
      rcases mem_stableInsert.mp hx with rfl | hx
      · exact le_of_not_lt h
      · exact hs.1 x hx

theorem stableInsert_of_last_le {e : MetricEntry} {l : List MetricEntry}
    (hs : l.Sorted tsLE) (h : (l.getLastD default).timestamp ≤ e.timestamp) :
    stableInsert e l = l ++ [e] := by
  induction l with
  | nil => rfl
  | cons b l ih =>
    rw [List.sorted_cons] at hs
    have hb : b.timestamp ≤ e.timestamp := by
      cases l with
      | nil => simpa [List.getLastD] using h
      | cons c l' =>
        refine le_trans (hs.1 _ (List.getLast_mem (l := c :: l') (by simp))) ?_
        simpa [List.getLastD_cons, List.getLastD_eq_getLast?,
          List.getLast?_eq_getLast (c :: l') (by simp)] using h
    rw [stableInsert, if_neg (not_lt.mpr hb)]
    cases l with
    | nil => rfl
    | cons c l' =>
      rw [ih hs.2 (by simpa [List.getLastD_cons] using h)]
      rfl

theorem stableInsert_of_countP_eq_zero {e : MetricEntry} {l : List MetricEntry}
    (h : l.countP (fun b => decide (b.timestamp ≤ e.timestamp)) = 0) :
    stableInsert e l = e :: l := by
  cases l with
  | nil => rfl
  | cons b l =>
    rw [List.countP_cons] at h
    have hb : ¬ b.timestamp ≤ e.timestamp := by
      intro hc
      simp [hc] at h
    rw [stableInsert, if_pos (lt_of_not_le hb)]

theorem countP_eq_of_pointwise (l : List MetricEntry) (p : MetricEntry → Bool) (k : ℕ)
    (hk : k ≤ l.length)
    (h1 : ∀ i, i < k → p (l.getD i default) = true)
    (h2 : ∀ i, k ≤ i → i < l.length → ¬ p (l.getD i default) = true) :
    l.countP p = k := by
  conv_lhs => rw [← List.take_append_drop k l]
  rw [List.countP_append]
  have htake : (l.take k).countP p = k := by
    have hall : ∀ a ∈ l.take k, p a = true := by
      intro a ha
      obtain ⟨i, hm, hi⟩ := List.mem_take_iff_getElem.mp ha
      have hik : i < k := lt_of_lt_of_le hm (min_le_left _ _)
      have hil : i < l.length := lt_of_lt_of_le hm (min_le_right _ _)
      rw [← hi, ← List.getD_eq_getElem l default hil]
      exact h1 i hik
    rw [List.countP_eq_length.mpr hall, List.length_take]
    omega
  have hdrop : (l.drop k).countP p = 0 := by
    refine List.countP_eq_zero.mpr ?_
    intro a ha
    obtain ⟨i, hm, hi⟩ := List.mem_iff_getElem.mp ha
    have hkl : k + i < l.length := by
      have := hm
      rw [List.length_drop] at this
      omega
    rw [← hi, List.getElem_drop, ← List.getD_eq_getElem l default hkl]
    exact h2 (k + i) (by omega) hkl
  omega

theorem sorted_timestamp_getD_mono {l : List MetricEntry} (hs : l.Sorted tsLE)
    {i j : ℕ} (hij : i ≤ j) (hj : j < l.length) :
    (l.getD i default).timestamp ≤ (l.getD j default).timestamp := by
  rcases eq_or_lt_of_le hij with rfl | hlt
  · exact le_refl _
  · have hi : i < l.length := lt_trans hlt hj
    have := List.pairwise_iff_getElem.mp hs i j hi hj hlt
    rwa [List.getD_eq_getElem l default hi, List.getD_eq_getElem l default hj]

theorem findInsertionLoop_spec {l : List MetricEntry} {t : ℚ} (hs : l.Sorted tsLE) :
    ∀ (n left right : ℕ), right - left ≤ n → left ≤ right → right ≤ l.length →
    (∀ i, i < left → (l.getD i default).timestamp ≤ t) →
    (∀ i, right ≤ i → i < l.length → ¬ (l.getD i default).timestamp ≤ t) →
    findInsertionLoop l t left right = l.countP (fun b => decide (b.timestamp ≤ t)) := by
  intro n
  induction n with
  | zero =>
    intro left right h0 h1 h2 h3 h4
    have heq : left = right := by omega
    rw [findInsertionLoop, dif_neg (by omega)]
    refine (countP_eq_of_pointwise l _ left (by omega) ?_ ?_).symm
    · intro i hi
      simpa using h3 i hi
    · intro i hi hil
      simpa using h4 i (by omega) hil
  | succ n ih =>
    intro left right h0 h1 h2 h3 h4
    by_cases hlr : left < right
    · rw [findInsertionLoop, dif_pos hlr]
      have hmid1 : left ≤ (left + right) / 2 :=
        Nat.le_div_iff_mul_le (by norm_num) |>.mpr (by omega)
      have hmid2 : (left + right) / 2 < right :=
        Nat.div_lt_iff_lt_mul (by norm_num) |>.mpr (by omega)
      by_cases hc : (l.getD ((left + right) / 2) default).timestamp ≤ t
      · rw [if_pos hc]
        refine ih ((left + right) / 2 + 1) right (by omega) (by omega) h2 ?_ h4
        intro i hi
        rcases lt_or_ge i left with hil | hige
        · exact h3 i hil
        · exact le_trans
            (sorted_timestamp_getD_mono hs (by omega) (by omega)) hc
      · rw [if_neg hc]
        refine ih left ((left + right) / 2) (by omega) (by omega) (by omega) h3 ?_
        intro i hi hil
        intro hle
        exact hc (le_trans (sorted_timestamp_getD_mono hs hi hil) hle)
    · rw [findInsertionLoop, dif_neg hlr]
      refine (countP_eq_of_pointwise l _ left (by omega) ?_ ?_).symm
      · intro i hi
        simpa using h3 i hi
      · intro i hi hil
        simpa using h4 i (by omega) hil

theorem findInsertionIndex_eq_countP {l : List MetricEntry} {t : ℚ} (hs : l.Sorted tsLE) :
    findInsertionIndex l t = l.countP (fun b => decide (b.timestamp ≤ t)) := by
  refine findInsertionLoop_spec hs l.length 0 l.length (by omega) (by omega) (le_refl _)
    (by omega) ?_
  intro i hi hil
  omega

theorem findCutoffLoop_spec {l : List MetricEntry} {c : ℚ} (hs : l.Sorted tsLE) :
    ∀ (n left right : ℕ), right - left ≤ n → left ≤ right → right ≤ l.length →
    (∀ i, i < left → (l.getD i default).timestamp < c) →
    (∀ i, right ≤ i → i < l.length → ¬ (l.getD i default).timestamp < c) →
    findCutoffLoop l c left right = l.countP (fun b => decide (b.timestamp < c)) := by
  intro n
  induction n with
  | zero =>
    intro left right h0 h1 h2 h3 h4
    rw [findCutoffLoop, dif_neg (by omega)]
    refine (countP_eq_of_pointwise l _ left (by omega) ?_ ?_).symm
    · intro i hi
      simpa using h3 i hi
    · intro i hi hil
      simpa using h4 i (by omega) hil
  | succ n ih =>
    intro left right h0 h1 h2 h3 h4
    by_cases hlr : left < right
    · rw [findCutoffLoop, dif_pos hlr]
      have hmid1 : left ≤ (left + right) / 2 :=
        Nat.le_div_iff_mul_le (by norm_num) |>.mpr (by omega)
      have hmid2 : (left + right) / 2 < right :=
        Nat.div_lt_iff_lt_mul (by norm_num) |>.mpr (by omega)
      by_cases hc : (l.getD ((left + right) / 2) default).timestamp < c
      · rw [if_pos hc]
        refine ih ((left + right) / 2 + 1) right (by omega) (by omega) h2 ?_ h4
        intro i hi
        rcases lt_or_ge i left with hil | hige
        · exact h3 i hil
        · exact lt_of_le_of_lt
            (sorted_timestamp_getD_mono hs (by omega) (by omega)) hc
      · rw [if_neg hc]
        refine ih left ((left + right) / 2) (by omega) (by omega) (by omega) h3 ?_
        intro i hi hil
        intro hlt
        exact hc (lt_of_le_of_lt (sorted_timestamp_getD_mono hs hi hil) hlt)
    · rw [findCutoffLoop, dif_neg hlr]
      refine (countP_eq_of_pointwise l _ left (by omega) ?_ ?_).symm
      · intro i hi
        simpa using h3 i hi
      · intro i hi hil
        simpa using h4 i (by omega) hil

theorem findCutoffIndex_eq_countP {l : List MetricEntry} {c : ℚ} (hs : l.Sorted tsLE) :
    findCutoffIndex l c = l.countP (fun b => decide (b.timestamp < c)) := by
  refine findCutoffLoop_spec hs l.length 0 l.length (by omega) (by omega) (le_refl _)
    (by omega) ?_
  intro i hi hil
  omega

/-- On a sorted list, dropping everything strictly before the cutoff leaves
exactly the entries with timestamp `≥ cutoff`. -/
theorem drop_countP_lt_eq_filter {l : List MetricEntry} {c : ℚ} (hs : l.Sorted tsLE) :
    l.drop (l.countP fun b => decide (b.timestamp < c)) =
      l.filter (fun b => decide (c ≤ b.timestamp)) := by
  induction l with
  | nil => rfl
  | cons b l ih =>
    rw [List.sorted_cons] at hs
    rw [List.countP_cons]
    by_cases hb : b.timestamp < c
    · rw [if_pos (by simpa using hb)]
      rw [List.filter_cons_of_neg (by simpa using not_le.mpr hb)]
      rw [List.drop_succ_cons]
      exact ih hs.2
    · rw [if_neg (by simpa using hb)]
      have hzero : l.countP (fun x => decide (x.timestamp < c)) = 0 := by
        refine List.countP_eq_zero.mpr ?_
        intro a ha
        simp only [decide_eq_true_eq]
        exact not_lt.mpr (le_trans (not_lt.mp hb) (hs.1 a ha))
      rw [hzero]
      simp only [Nat.add_zero, List.drop_zero]
      symm
      refine List.filter_eq_self.mpr ?_
      intro a ha
      simp only [decide_eq_true_eq]
      rcases List.mem_cons.mp ha with rfl | ha
      · exact not_lt.mp hb
      · exact le_trans (not_lt.mp hb) (hs.1 a ha)

theorem windowFrom_eq_filter {l : List MetricEntry} (hs : l.Sorted tsLE)
    (now : ℚ) (minutes : ℤ) :
    windowFrom l now minutes =
      l.filter (fun b => decide (now - (minutes : ℚ) ≤ b.timestamp)) := by
  rw [windowFrom]
  by_cases hnil : l = []
  · simp [hnil]
  · rw [if_neg hnil, findCutoffIndex_eq_countP hs, drop_countP_lt_eq_filter hs]

theorem insertIdx_countP_eq_stableInsert {e : MetricEntry} {l : List MetricEntry}
    (hs : l.Sorted tsLE) :
    l.insertIdx (l.countP fun b => decide (b.timestamp ≤ e.timestamp)) e =
      stableInsert e l := by
  induction l with
  | nil => rfl
  | cons b l ih =>
    rw [List.sorted_cons] at hs
    rw [List.countP_cons]
    by_cases hb : b.timestamp ≤ e.timestamp
    · rw [if_pos (by simpa using hb)]
      rw [stableInsert, if_neg (not_lt.mpr hb)]
      rw [List.insertIdx_succ_cons]
      rw [ih hs.2]
    · rw [if_neg (by simpa using hb)]
      have hzero : l.countP (fun x => decide (x.timestamp ≤ e.timestamp)) = 0 := by
        refine List.countP_eq_zero.mpr ?_
        intro a ha
        simp only [decide_eq_true_eq]
        intro hc
        exact hb (le_trans (hs.1 a ha) hc)
      rw [hzero]
      rw [stableInsert, if_pos (lt_of_not_le hb)]
      rfl

theorem countP_le_drop {l : List MetricEntry} (hs : l.Sorted tsLE) (t : ℚ) :
    ∀ k : ℕ, (l.drop k).countP (fun b => decide (b.timestamp ≤ t)) =
      l.countP (fun b => decide (b.timestamp ≤ t)) - k := by
  induction l with
  | nil => intro k; simp
  | cons b l ih =>
    rw [List.sorted_cons] at hs
    intro k
    cases k with
    | zero => simp
    | succ k =>
      rw [List.drop_succ_cons, List.countP_cons]
      by_cases hb : b.timestamp ≤ t
      · rw [if_pos (by simpa using hb)]
        rw [ih hs.2 k]
        omega
      · rw [if_neg (by simpa using hb)]
        have hzero : l.countP (fun x => decide (x.timestamp ≤ t)) = 0 := by
          refine List.countP_eq_zero.mpr ?_
          intro a ha
          simp only [decide_eq_true_eq]
          intro hc
          exact hb (le_trans (hs.1 a ha) hc)
        have hdz : (l.drop k).countP (fun x => decide (x.timestamp ≤ t)) = 0 := by
          have := List.Sublist.countP_le (fun x => decide (x.timestamp ≤ t))
            (List.drop_sublist k l)
          omega
        omega

theorem stableInsert_cons (e b : MetricEntry) (l : List MetricEntry) :
    stableInsert e (b :: l) =
      if e.timestamp < b.timestamp then e :: b :: l else b :: stableInsert e l := rfl

theorem drop_succ_stableInsert {e : MetricEntry} {l : List MetricEntry}
    (hs : l.Sorted tsLE) :
    ∀ k ≤ l.length, (stableInsert e l).drop (k + 1) =
      if l.countP (fun b => decide (b.timestamp ≤ e.timestamp)) ≤ k then l.drop k
      else (stableInsert e (l.drop k)).drop 1 := by
  induction l with
  | nil =>
    intro k _
    rw [if_pos (by simp)]
    simp [stableInsert]
  | cons b l ih =>
    rw [List.sorted_cons] at hs
    intro k hk
    by_cases hlt : e.timestamp < b.timestamp
    · have hzero : (b :: l).countP (fun x => decide (x.timestamp ≤ e.timestamp)) = 0 := by
        refine List.countP_eq_zero.mpr ?_
        intro a ha
        simp only [decide_eq_true_eq]
        intro hc
        rcases List.mem_cons.mp ha with rfl | ha
        · exact absurd hc (not_le.mpr hlt)
        · exact absurd (le_trans (hs.1 a ha) hc) (not_le.mpr hlt)
      rw [hzero, if_pos (Nat.zero_le k)]
      rw [stableInsert, if_pos hlt, List.drop_succ_cons]
    · have hble : b.timestamp ≤ e.timestamp := not_lt.mp hlt
      have hcount : (b :: l).countP (fun x => decide (x.timestamp ≤ e.timestamp)) =
          l.countP (fun x => decide (x.timestamp ≤ e.timestamp)) + 1 := by
        rw [List.countP_cons]
        simp [hble]
      rw [hcount]
      cases k with
      | zero =>
        rw [if_neg (by omega), List.drop_zero]
      | succ k =>
        have hkl : k ≤ l.length := by simpa using hk
        rw [stableInsert_cons, if_neg hlt]
        rw [List.drop_succ_cons]
        rw [ih hs.2 k hkl]
        by_cases hp : l.countP (fun x => decide (x.timestamp ≤ e.timestamp)) ≤ k
        · rw [if_pos hp, if_pos (by omega), List.drop_succ_cons]
        · rw [if_neg hp, if_neg (by omega), List.drop_succ_cons]

theorem trim_eq_lastN (n : ℕ) (x : List MetricEntry) :
    (if n < x.length then x.drop (x.length - n) else x) = lastN n x := by
  by_cases h : n < x.length
  · rw [if_pos h]; rfl
  · rw [if_neg h, lastN, Nat.sub_eq_zero_of_le (not_lt.mp h), List.drop_zero]

theorem addToEntries_eq {l : List MetricEntry} {e : MetricEntry}
    (hs : l.Sorted tsLE) (n : ℕ) :
    addToEntries n l e = lastN n (stableInsert e l) := by
  have hins : (if l = [] ∨ (l.getLastD default).timestamp ≤ e.timestamp
        then l ++ [e]
        else l.insertIdx (findInsertionIndex l e.timestamp) e) = stableInsert e l := by
    by_cases hc : l = [] ∨ (l.getLastD default).timestamp ≤ e.timestamp
    · rw [if_pos hc]
      rcases hc with rfl | hc
      · rfl
      · exact (stableInsert_of_last_le hs hc).symm
    · rw [if_neg hc, findInsertionIndex_eq_countP hs]
      exact insertIdx_countP_eq_stableInsert hs
  rw [addToEntries]
  simp only [hins]
  exact trim_eq_lastN n _

theorem addToEntries_lastN {s : List MetricEntry} {e : MetricEntry} {n : ℕ}
    (hs : s.Sorted tsLE) :
    addToEntries n (lastN n s) e = lastN n (stableInsert e s) := by
  have hs' : (lastN n s).Sorted tsLE :=
    List.Pairwise.sublist (List.drop_sublist _ _) hs
  rw [addToEntries_eq hs' n]
  by_cases hlen : s.length ≤ n
  · have hid : lastN n s = s := by
      rw [lastN, Nat.sub_eq_zero_of_le hlen, List.drop_zero]
    rw [hid]
  · have hk : s.length - n ≤ s.length := Nat.sub_le _ _
    have hdl : (s.drop (s.length - n)).length = n := by
      rw [List.length_drop]; omega
    have hlast : lastN n s = s.drop (s.length - n) := rfl
    rw [hlast]
    have hlterm : lastN n (stableInsert e (s.drop (s.length - n))) =
        (stableInsert e (s.drop (s.length - n))).drop 1 := by
      rw [lastN, stableInsert_length, hdl]
      norm_num
    rw [hlterm]
    have hrterm : lastN n (stableInsert e s) =
        (stableInsert e s).drop ((s.length - n) + 1) := by
      rw [lastN, stableInsert_length]
      congr 1
      omega
    rw [hrterm, drop_succ_stableInsert hs (s.length - n) hk]
    by_cases hp : s.countP (fun b => decide (b.timestamp ≤ e.timestamp)) ≤ s.length - n
    · rw [if_pos hp]
      have hzero : (s.drop (s.length - n)).countP
          (fun b => decide (b.timestamp ≤ e.timestamp)) = 0 := by
        rw [countP_le_drop hs]
        omega
      rw [stableInsert_of_countP_eq_zero hzero, List.drop_succ_cons, List.drop_zero]
    · rw [if_neg hp]

/-- Master characterisation of the store: folding the service's `add` over
any insertion sequence yields exactly the `n` most recent entries of the
stable sort of that sequence; in particular the series is always sorted. -/
theorem addAll_eq_lastN_sortByTime (n : ℕ) (l : List MetricEntry) :
    addAll n l = lastN n (sortByTime l) ∧ (sortByTime l).Sorted tsLE := by
  induction l using List.reverseRecOn with
  | nil => exact ⟨by simp [addAll, sortByTime, lastN], List.sorted_nil⟩
  | append_singleton l e ih =>
    have hsort : sortByTime (l ++ [e]) = stableInsert e (sortByTime l) := by
      rw [sortByTime, sortByTime, List.foldl_append, List.foldl_cons, List.foldl_nil]
    have haddAll : addAll n (l ++ [e]) = addToEntries n (addAll n l) e := by
      rw [addAll, addAll, List.foldl_append, List.foldl_cons, List.foldl_nil]
    rw [haddAll, hsort, ih.1]
    exact ⟨addToEntries_lastN ih.2, stableInsert_sorted ih.2⟩

theorem sortByTime_length (l : List MetricEntry) :
    (sortByTime l).length = l.length := by
  induction l using List.reverseRecOn with
  | nil => rfl
  | append_singleton l e ih =>
    rw [sortByTime, List.foldl_append, List.foldl_cons, List.foldl_nil]
    rw [← sortByTime, stableInsert_length, ih, List.length_append, List.length_singleton]

theorem filter_stableInsert_eq {τ : ℚ} {e : MetricEntry} {l : List MetricEntry}
    (hs : l.Sorted tsLE) (he : e.timestamp = τ) :
    (stableInsert e l).filter (fun x => decide (x.timestamp = τ)) =
      l.filter (fun x => decide (x.timestamp = τ)) ++ [e] := by
  induction l with
  | nil => simp [stableInsert, he]
  | cons b l ih =>
    rw [List.sorted_cons] at hs
    by_cases hlt : e.timestamp < b.timestamp
    · rw [stableInsert_cons, if_pos hlt]
      have hfil : (b :: l).filter (fun x => decide (x.timestamp = τ)) = [] := by
        refine List.filter_eq_nil_iff.mpr ?_
        intro a ha
        simp only [decide_eq_true_eq]
        rcases List.mem_cons.mp ha with rfl | ha
        · intro hc; rw [← he] at hc; exact absurd hc.symm (ne_of_lt hlt)
        · intro hc
          have hba : b.timestamp ≤ a.timestamp := hs.1 a ha
          rw [hc, ← he] at hba
          exact absurd hba (not_le.mpr hlt)
      rw [List.filter_cons_of_pos (by simpa using he), hfil]
      rfl
    · rw [stableInsert_cons, if_neg hlt]
      rw [List.filter_cons, List.filter_cons, ih hs.2]
      by_cases hb : b.timestamp = τ
      · rw [if_pos (by simpa using hb), if_pos (by simpa using hb)]
        rfl
      · rw [if_neg (by simpa using hb), if_neg (by simpa using hb)]

theorem filter_stableInsert_ne {τ : ℚ} {e : MetricEntry} {l : List MetricEntry}
    (he : ¬ e.timestamp = τ) :
    (stableInsert e l).filter (fun x => decide (x.timestamp = τ)) =
      l.filter (fun x => decide (x.timestamp = τ)) := by
  induction l with
  | nil => simp [stableInsert, he]
  | cons b l ih =>
    by_cases hlt : e.timestamp < b.timestamp
    · rw [stableInsert_cons, if_pos hlt]
      rw [List.filter_cons_of_neg (by simpa using he)]
    · rw [stableInsert_cons, if_neg hlt]
      rw [List.filter_cons, List.filter_cons, ih]

theorem filter_sortByTime (τ : ℚ) (l : List MetricEntry) :
    (sortByTime l).filter (fun x => decide (x.timestamp = τ)) =
      l.filter (fun x => decide (x.timestamp = τ)) := by
  induction l using List.reverseRecOn with
  | nil => rfl
  | append_singleton l e ih =>
    have hsort : sortByTime (l ++ [e]) = stableInsert e (sortByTime l) := by
      rw [sortByTime, List.foldl_append, List.foldl_cons, List.foldl_nil]
      rfl
    rw [hsort, List.filter_append]
    by_cases he : e.timestamp = τ
    · rw [filter_stableInsert_eq (addAll_eq_lastN_sortByTime 0 l).2 he, ih]
      rw [List.filter_cons_of_pos (by simpa using he), List.filter_nil]
    · rw [filter_stableInsert_ne he, ih]
      rw [List.filter_cons_of_neg (by simpa using he), List.filter_nil, List.append_nil]

theorem addAll_length (n : ℕ) (l : List MetricEntry) :
    (addAll n l).length = min n l.length := by
  rw [(addAll_eq_lastN_sortByTime n l).1, lastN, List.length_drop, sortByTime_length]
  omega

/-- A small out-of-order insertion sequence with duplicate timestamps,
used to instantiate the ordering claims. -/
def demoSeq : List MetricEntry :=
  [{ resource_id := "r", cpu_usage := 1, memory_usage := 0, gpu_usage := 0, timestamp := 2 },
   { resource_id := "r", cpu_usage := 2, memory_usage := 0, gpu_usage := 0, timestamp := 1 },
   { resource_id := "r", cpu_usage := 3, memory_usage := 0, gpu_usage := 0, timestamp := 1 }]

/-- C1: for every sequence of `add` calls to one resource, in any order of
timestamps, the resulting series is sorted non-decreasing by timestamp;
samples with equal timestamps keep their relative insertion order (the
equal-timestamp subsequence of the series is a suffix of the
equal-timestamp subsequence of the insertion sequence); and each single
`add` on a sorted series places the new sample after all samples whose
timestamp is `≤` its own (`stableInsert`), trimmed to capacity. -/
theorem C1_ordering_invariant (l : List MetricEntry) :
    (addAll MAX_ENTRIES_PER_RESOURCE l).Sorted tsLE ∧
    (∀ τ : ℚ,
      ((addAll MAX_ENTRIES_PER_RESOURCE l).filter fun x => decide (x.timestamp = τ)).IsSuffix
        (l.filter fun x => decide (x.timestamp = τ))) ∧
    (∀ (s : List MetricEntry) (e : MetricEntry), s.Sorted tsLE →
      addToEntries MAX_ENTRIES_PER_RESOURCE s e =
        lastN MAX_ENTRIES_PER_RESOURCE (stableInsert e s)) := by
  obtain ⟨hmaster, hsorted⟩ := addAll_eq_lastN_sortByTime MAX_ENTRIES_PER_RESOURCE l
  refine ⟨?_, ?_, fun s e hs => addToEntries_eq hs _⟩
  · rw [hmaster]
    exact List.Pairwise.sublist (List.drop_sublist _ _) hsorted
  · intro τ
    rw [hmaster, lastN]
    refine ⟨(sortByTime l).take ((sortByTime l).length - MAX_ENTRIES_PER_RESOURCE)
      |>.filter fun x => decide (x.timestamp = τ), ?_⟩
    rw [← List.filter_append, List.take_append_drop, filter_sortByTime]

/-- Witness for C1 at a concrete out-of-order insertion sequence with a
duplicate timestamp. -/
theorem C1_ordering_invariant_witness :
    (addAll MAX_ENTRIES_PER_RESOURCE demoSeq).Sorted tsLE ∧
    ((addAll MAX_ENTRIES_PER_RESOURCE demoSeq).filter fun x => decide (x.timestamp = 1)).IsSuffix
      (demoSeq.filter fun x => decide (x.timestamp = 1)) :=
  ⟨(C1_ordering_invariant demoSeq).1, (C1_ordering_invariant demoSeq).2.1 1⟩

/-- C2: after inserting more than `N_max = 10000` samples into one
resource, the series has length exactly `N_max` and equals the `N_max`
chronologically-latest inserted samples in order (the tail of the stable
sort of the insertion sequence); moreover, after any insertion sequence
whatsoever the series never exceeds `N_max`, so no read observes a longer
series. -/
theorem C2_retention_invariant (l : List MetricEntry)
    (h : MAX_ENTRIES_PER_RESOURCE < l.length) :
    (addAll MAX_ENTRIES_PER_RESOURCE l).length = MAX_ENTRIES_PER_RESOURCE ∧
    addAll MAX_ENTRIES_PER_RESOURCE l =
      (sortByTime l).drop (l.length - MAX_ENTRIES_PER_RESOURCE) ∧
    ∀ l' : List MetricEntry,
      (addAll MAX_ENTRIES_PER_RESOURCE l').length ≤ MAX_ENTRIES_PER_RESOURCE := by
  refine ⟨?_, ?_, ?_⟩
  · rw [addAll_length]; omega
  · rw [(addAll_eq_lastN_sortByTime MAX_ENTRIES_PER_RESOURCE l).1, lastN, sortByTime_length]
  · intro l'
    rw [addAll_length]
    omega

/-- Witness for C2: 10001 inserted samples leave exactly 10000. -/
theorem C2_retention_invariant_witness :
    MAX_ENTRIES_PER_RESOURCE < (List.replicate 10001 (default : MetricEntry)).length ∧
    (addAll MAX_ENTRIES_PER_RESOURCE (List.replicate 10001 (default : MetricEntry))).length =
      MAX_ENTRIES_PER_RESOURCE :=
  ⟨by rw [List.length_replicate]; norm_num [MAX_ENTRIES_PER_RESOURCE],
   (C2_retention_invariant _
     (by rw [List.length_replicate]; norm_num [MAX_ENTRIES_PER_RESOURCE])).1⟩

/-- C9: each of the five operations fails with `InvalidArgument` exactly
when its arguments are invalid per the spec (blank resource identifier
everywhere; non-positive minutes for `window`/`computeRisk`;
`window_size < 2` or `z_threshold ≤ 0` for `detectAnomaly`), and a failing
operation leaves the state — in particular the store — unchanged. -/
theorem C9_validation (st : SysState) (op : Op) :
    ((step st op).2 = .err .invalidArgument ↔ invalidArgs op) ∧
    (invalidArgs op → step st op = (st, .err .invalidArgument)) := by
  cases op with
  | add m =>
    by_cases hb : blankId m.resource_id
    · simp [step, add_metric, hb, invalidArgs]
    · simp [step, add_metric, hb, invalidArgs]
  | latest rid =>
    by_cases hb : blankId rid
    · simp [step, get_latest_metric, hb, invalidArgs]
    · simp [step, get_latest_metric, hb, invalidArgs]
  | window rid minutes =>
    by_cases hb : blankId rid
    · simp [step, get_metrics_last_n_minutes, hb, invalidArgs]
    · by_cases hm : minutes ≤ 0
      · simp [step, get_metrics_last_n_minutes, hb, hm, invalidArgs]
      · simp [step, get_metrics_last_n_minutes, hb, hm, invalidArgs]
  | detect rid ws zt =>
    by_cases hb : blankId rid
    · simp [step, detect_anomaly, hb, invalidArgs]
    · by_cases hw : ws < 2
      · simp [step, detect_anomaly, hb, hw, invalidArgs]
      · by_cases hz : zt ≤ 0
        · simp [step, detect_anomaly, hb, hw, hz, invalidArgs]
        · simp [step, detect_anomaly, hb, hw, hz, invalidArgs]
  | risk rid lb ct mt gt =>
    by_cases hb : blankId rid
    · simp [step, compute_sla_risk, hb, invalidArgs]
    · by_cases hl : lb ≤ 0
      · simp [step, compute_sla_risk, hb, hl, invalidArgs]
      · by_cases hw : windowFrom (st.store rid) st.now lb = []
        · simp [step, compute_sla_risk, hb, hl, hw, invalidArgs]
        · simp [step, compute_sla_risk, hb, hl, hw, invalidArgs]

/-- Witness for C9: adding a sample with a blank resource identifier fails
with `InvalidArgument` and leaves the state unchanged. -/
theorem C9_validation_witness :
    invalidArgs (.add (default : MetricEntry)) ∧
    step ⟨Store.empty, 0⟩ (.add (default : MetricEntry)) =
      (⟨Store.empty, 0⟩, .err .invalidArgument) :=
  have hinv : invalidArgs (.add (default : MetricEntry)) := by
    show blankId (default : MetricEntry).resource_id = true
    decide
  ⟨hinv, (C9_validation ⟨Store.empty, 0⟩ (.add (default : MetricEntry))).2 hinv⟩

/-- C10: read operations (`latest`, `window`, `detectAnomaly`,
`computeRisk`) leave the state unchanged, so two consecutive calls with
identical arguments and no intervening `add` produce identical results. -/
theorem C10_read_purity (st : SysState) (op : Op) (h : isRead op) :
    (step st op).1 = st ∧
    (step (step st op).1 op).2 = (step st op).2 := by
  have hfst : (step st op).1 = st := by
    cases op with
    | add m => exact absurd h (by simp [isRead])
    | latest rid => rfl
    | window rid minutes => rfl
    | detect rid ws zt => rfl
    | risk rid lb ct mt gt => rfl
  exact ⟨hfst, by rw [hfst]⟩

/-- Witness for C10: two consecutive `detectAnomaly` calls on the same
state return the same result. -/
theorem C10_read_purity_witness :
    isRead (.detect "r" 10 2) ∧
    (step (step ⟨Store.empty, 0⟩ (.detect "r" 10 2)).1 (.detect "r" 10 2)).2 =
      (step ⟨Store.empty, 0⟩ (.detect "r" 10 2)).2 :=
  ⟨trivial, (C10_read_purity ⟨Store.empty, 0⟩ (.detect "r" 10 2) trivial).2⟩

theorem detectCore_insufficient_iff (all : List MetricEntry) (ws : ℤ) (zt : ℚ) :
    ((detectCore all ws zt).status = .INSUFFICIENT_DATA ↔ all.length < ws.toNat + 1) ∧
    ((detectCore all ws zt).status = .INSUFFICIENT_DATA →
      detectCore all ws zt = insufficientDataResult) := by
  by_cases hnil : all = []
  · subst hnil
    simp [detectCore, insufficientDataResult]
  · by_cases hlen : all.length < ws.toNat + 1
    · simp [detectCore, hnil, hlen, insufficientDataResult]
    · rw [detectCore, if_neg hnil, if_neg hlen]
      by_cases hanom :
          (List.map (fun p => p.1)
            (metricFields.filter fun p =>
              if (zt : ℝ) < windowZScore
                  ((all.drop (all.length - (ws.toNat + 1))).dropLast)
                  (all.getLastD default) p.2
                then true else false)) = []
      · simp only [hanom, if_pos]
        constructor
        · constructor
          · intro hc; exact absurd hc (by simp)
          · intro hc; exact absurd hc (by omega)
        · intro hc; exact absurd hc (by simp)
      · simp only [hanom, if_neg]
        constructor
        · constructor
          · intro hc; exact absurd hc (by simp)
          · intro hc; exact absurd hc (by omega)
        · intro hc; exact absurd hc (by simp)

/-- The store holding `l` at `rid` and nothing elsewhere. -/
def storeOf (rid : String) (l : List MetricEntry) : Store :=
  fun r => if r = rid then l else []

/-- C6: with valid arguments, `detectAnomaly` returns `INSUFFICIENT_DATA`
(with no anomaly flag, empty anomaly set, confidence 0) exactly when the
resource has fewer than `window_size + 1` samples in the last 60 minutes;
with at least `window_size + 1` such samples the analysis proceeds. -/
theorem C6_insufficient_boundary (s : Store) (now : ℚ) (rid : String) (ws : ℤ) (zt : ℚ)
    (hb : ¬ blankId rid = true) (hw : ¬ ws < 2) (hz : ¬ zt ≤ 0)
    (hs : (s rid).Sorted tsLE) :
    ∃ r : AnomalyResult, detect_anomaly s now rid ws zt = .ok r ∧
      (r.status = .INSUFFICIENT_DATA ↔
        ((s rid).filter fun b => decide (now - 60 ≤ b.timestamp)).length < ws.toNat + 1) ∧
      (r.status = .INSUFFICIENT_DATA →
        r.anomaly_detected = false ∧ r.anomaly_metrics = [] ∧ r.confidence_score = 0) := by
  refine ⟨detectCore (windowFrom (s rid) now 60) ws zt, ?_, ?_, ?_⟩
  · rw [detect_anomaly, if_neg (by simpa using hb), if_neg hw, if_neg hz]
  · rw [(detectCore_insufficient_iff (windowFrom (s rid) now 60) ws zt).1]
    rw [windowFrom_eq_filter hs]
    norm_num
  · intro hc
    rw [(detectCore_insufficient_iff (windowFrom (s rid) now 60) ws zt).2 hc]
    exact ⟨rfl, rfl, rfl⟩

/-- Two samples at a fixed resource, for the boundary witness. -/
def seriesC6 : List MetricEntry :=
  [{ resource_id := "r", cpu_usage := 10, memory_usage := 10, gpu_usage := 10, timestamp := 1 },
   { resource_id := "r", cpu_usage := 20, memory_usage := 20, gpu_usage := 20, timestamp := 2 }]

/-- Witness for C6: exactly `window_size = 2` samples in the last 60
minutes yield `INSUFFICIENT_DATA`. -/
theorem C6_insufficient_boundary_witness :
    ∃ r : AnomalyResult, detect_anomaly (storeOf "r" seriesC6) 10 "r" 2 2 = .ok r ∧
      r.status = .INSUFFICIENT_DATA := by
  obtain ⟨r, hr, hiff, _⟩ := C6_insufficient_boundary (storeOf "r" seriesC6) 10 "r" 2 2
    (by decide) (by decide) (by norm_num)
    (by norm_num [storeOf, seriesC6, List.sorted_cons, tsLE])
  refine ⟨r, hr, hiff.mpr ?_⟩
  norm_num [storeOf, seriesC6, List.filter]
  decide

/-! ## Specification-side statistics

The spec states the detector's statistics directly over the reals: the
arithmetic mean of the baseline values, the sample standard deviation with
Bessel's correction, and `z = |latest - mean| / std` with the `std = 0 →
z = 0` rule.  These definitions follow those words; the theorems below
relate the detector's computation to them. -/

/-- Arithmetic mean of the baseline values, over `ℝ`. -/
noncomputable def baselineMean (values : List ℚ) : ℝ :=
  (values.map fun x : ℚ => (x : ℝ)).sum / values.length

/-- Sample standard deviation with Bessel's correction: squared-deviation
sum divided by `n - 1`, then the square root. -/
noncomputable def baselineSampleStd (values : List ℚ) : ℝ :=
  Real.sqrt ((values.map fun x : ℚ => ((x : ℝ) - baselineMean values) ^ 2).sum /
    ((values.length : ℝ) - 1))

/-- The spec's z-score of `v` against the baseline `values`:
`|v - mean| / std`, and `0` when the standard deviation is `0`. -/
noncomputable def specZScore (values : List ℚ) (v : ℚ) : ℝ :=
  if baselineSampleStd values = 0 then 0
  else |(v : ℝ) - baselineMean values| / baselineSampleStd values

theorem ratCast_list_sum (l : List ℚ) :
    ((l.sum : ℚ) : ℝ) = (l.map fun x : ℚ => (x : ℝ)).sum := by
  induction l with
  | nil => simp
  | cons a l ih =>
    rw [List.sum_cons, List.map_cons, List.sum_cons, Rat.cast_add, ih]

/-- The detector's per-metric computation agrees with the spec's
real-valued statistics on any baseline with at least two values. -/
theorem windowZScore_eq_spec (window : List MetricEntry) (latest : MetricEntry)
    (f : MetricEntry → ℚ) (hlen : 2 ≤ window.length) :
    windowZScore window latest f = specZScore (window.map f) (f latest) := by
  have hnil : window.map f ≠ [] := by
    intro hc
    have hlc := congrArg List.length hc
    rw [List.length_map] at hlc
    simp only [List.length_nil] at hlc
    omega
  have hlen2 : ¬ (window.map f).length < 2 := by
    rw [List.length_map]
    omega
  have hmean : ((_calculate_mean (window.map f) : ℚ) : ℝ) = baselineMean (window.map f) := by
    rw [_calculate_mean, if_neg hnil, baselineMean, Rat.cast_div, ratCast_list_sum,
      Rat.cast_natCast]
  have hstd : _calculate_sample_std (window.map f) (_calculate_mean (window.map f)) =
      baselineSampleStd (window.map f) := by
    rw [_calculate_sample_std, if_neg hlen2, baselineSampleStd]
    congr 1
    rw [Rat.cast_div, ratCast_list_sum, List.map_map]
    have hfun : ((fun x : ℚ => (x : ℝ)) ∘ fun x : ℚ =>
          (x - _calculate_mean (window.map f)) ^ 2) =
        (fun x : ℚ => ((x : ℝ) - baselineMean (window.map f)) ^ 2) := by
      funext x
      simp only [Function.comp_apply]
      push_cast [hmean]
      ring
    rw [hfun, Rat.cast_sub, Rat.cast_natCast, Rat.cast_one]
  simp only [windowZScore, specZScore, _calculate_z_score]
  rw [hstd, hmean]

theorem decompose_take_dropLast_getLastD (all : List MetricEntry) (m : ℕ)
    (hm : m < all.length) :
    all = all.take m ++ ((all.drop m).dropLast ++ [all.getLastD default]) := by
  have hanil : all ≠ [] := by
    intro hc
    subst hc
    simp at hm
  have hdnil : all.drop m ≠ [] := by
    intro hc
    have := congrArg List.length hc
    rw [List.length_drop] at this
    simp only [List.length_nil] at this
    omega
  conv_lhs => rw [← List.take_append_drop m all]
  congr 1
  rw [List.getLastD_eq_getLast?, List.getLast?_eq_getLast all hanil, Option.getD_some]
  rw [← List.getLast_drop hdnil]
  exact (List.dropLast_append_getLast hdnil).symm

theorem max_getD_spec (L : List ℝ) (h : L ≠ []) :
    (L.max?.getD 0) ∈ L ∧ ∀ z ∈ L, z ≤ L.max?.getD 0 := by
  obtain ⟨a, ha⟩ : ∃ a, L.max? = some a := by
    cases hM : L.max? with
    | none => exact absurd (List.max?_eq_none_iff.mp hM) h
    | some a => exact ⟨a, rfl⟩
  rw [ha]
  simp only [Option.getD_some]
  constructor
  · exact List.max?_mem (fun a b => max_choice a b) ha
  · intro z hz
    exact (List.max?_le_iff (fun a b c => max_le_iff) ha).mp (le_refl a) z hz

theorem windowFrom60_eq_filter {l : List MetricEntry} (hs : l.Sorted tsLE) (now : ℚ) :
    windowFrom l now 60 = l.filter (fun b => decide (now - 60 ≤ b.timestamp)) := by
  rw [windowFrom_eq_filter hs]
  simp only [show ((60 : ℤ) : ℚ) = (60 : ℚ) from by norm_num]

/-- C3: with valid arguments and at least `window_size + 1` samples in the
last 60 minutes, the detector takes `latest` = the most recent such sample
and `baseline` = the `window_size` samples immediately preceding it, and
flags each metric exactly when its z-score — absolute deviation of the
latest value from the baseline mean divided by the Bessel-corrected sample
standard deviation — exceeds the threshold; the overall status is
`ANOMALY` iff some metric is flagged, else `OK`. -/
theorem C3_zscore_analysis (s : Store) (now : ℚ) (rid : String) (ws : ℤ) (zt : ℚ)
    (hb : ¬ blankId rid = true) (hw : ¬ ws < 2) (hz : ¬ zt ≤ 0)
    (hs : (s rid).Sorted tsLE)
    (hcount : ws.toNat + 1 ≤
      ((s rid).filter fun b => decide (now - 60 ≤ b.timestamp)).length) :
    ∃ (r : AnomalyResult) (pre window : List MetricEntry) (latest : MetricEntry),
      detect_anomaly s now rid ws zt = .ok r ∧
      (s rid).filter (fun b => decide (now - 60 ≤ b.timestamp)) =
        pre ++ (window ++ [latest]) ∧
      window.length = ws.toNat ∧
      (r.status = .ANOMALY ↔
        ((zt : ℝ) < specZScore (window.map fun m => m.cpu_usage) latest.cpu_usage ∨
         (zt : ℝ) < specZScore (window.map fun m => m.memory_usage) latest.memory_usage ∨
         (zt : ℝ) < specZScore (window.map fun m => m.gpu_usage) latest.gpu_usage)) ∧
      (r.status = .ANOMALY ∨ r.status = .OK) ∧
      (r.anomaly_detected = true ↔ r.status = .ANOMALY) ∧
      r.anomaly_metrics =
        ((if (zt : ℝ) < specZScore (window.map fun m => m.cpu_usage) latest.cpu_usage
            then ["cpu_usage"] else []) ++
         (if (zt : ℝ) < specZScore (window.map fun m => m.memory_usage) latest.memory_usage
            then ["memory_usage"] else []) ++
         (if (zt : ℝ) < specZScore (window.map fun m => m.gpu_usage) latest.gpu_usage
            then ["gpu_usage"] else [])) := by
  have hfilter := windowFrom60_eq_filter hs now
  set all := (s rid).filter (fun b => decide (now - 60 ≤ b.timestamp)) with hall
  set m := all.length - (ws.toNat + 1) with hm
  have hmlt : m < all.length := by omega
  have hnil : all ≠ [] := by
    intro hc
    rw [hc] at hcount
    simp at hcount
  have hlen' : ¬ all.length < ws.toNat + 1 := by omega
  have hwlen : ((all.drop m).dropLast).length = ws.toNat := by
    rw [List.length_dropLast, List.length_drop]
    omega
  have hwin2 : 2 ≤ ((all.drop m).dropLast).length := by
    rw [hwlen]
    omega
  have hbrc := windowZScore_eq_spec ((all.drop m).dropLast) (all.getLastD default)
    (fun mm => mm.cpu_usage) hwin2
  have hbrm := windowZScore_eq_spec ((all.drop m).dropLast) (all.getLastD default)
    (fun mm => mm.memory_usage) hwin2
  have hbrg := windowZScore_eq_spec ((all.drop m).dropLast) (all.getLastD default)
    (fun mm => mm.gpu_usage) hwin2
  refine ⟨detectCore all ws zt, all.take m, (all.drop m).dropLast, all.getLastD default,
    ?_, ?_, hwlen, ?_⟩
  · rw [detect_anomaly, if_neg (by simpa using hb), if_neg hw, if_neg hz, hfilter]
  · exact decompose_take_dropLast_getLastD all m hmlt
  · rw [detectCore, if_neg hnil, if_neg hlen']
    simp only [← hm, metricFields, List.filter_cons, List.filter_nil, hbrc, hbrm, hbrg]
    by_cases c1 : (zt : ℝ) <
        specZScore (((all.drop m).dropLast).map fun mm => mm.cpu_usage)
          (all.getLastD default).cpu_usage <;>
      by_cases c2 : (zt : ℝ) <
          specZScore (((all.drop m).dropLast).map fun mm => mm.memory_usage)
            (all.getLastD default).memory_usage <;>
        by_cases c3 : (zt : ℝ) <
            specZScore (((all.drop m).dropLast).map fun mm => mm.gpu_usage)
              (all.getLastD default).gpu_usage <;>
          (simp only [c1, c2, c3, ite_true, ite_false, List.map_cons, List.map_nil,
            List.cons_ne_nil]
           simp)

/-- The analysis branch of the detector, phrased with the spec-side
real-valued z-scores (`specZScore`) instead of the detector's internal
computation; `detectCore_eq_specDetect` proves both agree. -/
noncomputable def specDetect (all : List MetricEntry) (ws : ℤ) (zt : ℚ) : AnomalyResult :=
  let latest := all.getLastD default
  let window := (all.drop (all.length - (ws.toNat + 1))).dropLast
  let anomalous := metricFields.filter fun p =>
    if (zt : ℝ) < specZScore (window.map p.2) (p.2 latest) then true else false
  if anomalous.map (fun p => p.1) = [] then
    { status := .OK, anomaly_detected := false, anomaly_metrics := [], confidence_score := 0 }
  else
    { status := .ANOMALY, anomaly_detected := true,
      anomaly_metrics := anomalous.map fun p => p.1,
      confidence_score := _z_score_to_confidence
        (((anomalous.map fun p => specZScore (window.map p.2) (p.2 latest)).max?).getD 0) zt }

theorem detectCore_eq_specDetect {all : List MetricEntry} {ws : ℤ} {zt : ℚ}
    (hnil : all ≠ []) (hlen' : ¬ all.length < ws.toNat + 1) (hws2 : 2 ≤ ws.toNat) :
    detectCore all ws zt = specDetect all ws zt := by
  have hwin2 : 2 ≤ ((all.drop (all.length - (ws.toNat + 1))).dropLast).length := by
    rw [List.length_dropLast, List.length_drop]
    omega
  rw [detectCore, if_neg hnil, if_neg hlen', specDetect]
  simp only [windowZScore_eq_spec _ _ _ hwin2]

/-- On a nonempty list of z-scores all above the threshold, the Python
`max` picks an element `zmax` that bounds the list, and the confidence is
`min((zmax - threshold)/threshold, 1)` rounded to 3 decimals. -/
theorem confidence_formula (L : List ℝ) (zt : ℚ) (hne : L ≠ [])
    (hall : ∀ z ∈ L, (zt : ℝ) < z) :
    ∃ zmax, L.max?.getD 0 = zmax ∧ zmax ∈ L ∧ (∀ z ∈ L, z ≤ zmax) ∧
      _z_score_to_confidence (L.max?.getD 0) zt =
        roundTo3 (min ((L.max?.getD 0 - (zt : ℝ)) / (zt : ℝ)) 1) := by
  obtain ⟨hmem, hbound⟩ := max_getD_spec L hne
  exact ⟨L.max?.getD 0, rfl, hmem, hbound,
    by rw [_z_score_to_confidence, if_neg (not_le.mpr (hall _ hmem))]⟩

/-- C5: whenever `detectAnomaly` returns `ANOMALY` its confidence equals
`min((z_max - z_threshold)/z_threshold, 1)` rounded to 3 decimals, where
`z_max` is the maximum z-score among the anomalous metrics (an element of
the flagged z-score list bounding it from above); whenever it returns
`OK` the confidence is 0. -/
theorem C5_confidence_formula (s : Store) (now : ℚ) (rid : String) (ws : ℤ) (zt : ℚ)
    (hb : ¬ blankId rid = true) (hw : ¬ ws < 2) (hz : ¬ zt ≤ 0)
    (hs : (s rid).Sorted tsLE)
    (hcount : ws.toNat + 1 ≤
      ((s rid).filter fun b => decide (now - 60 ≤ b.timestamp)).length) :
    ∃ (r : AnomalyResult) (pre window : List MetricEntry) (latest : MetricEntry),
      detect_anomaly s now rid ws zt = .ok r ∧
      (s rid).filter (fun b => decide (now - 60 ≤ b.timestamp)) =
        pre ++ (window ++ [latest]) ∧
      window.length = ws.toNat ∧
      (r.status = .ANOMALY ↔
        ((zt : ℝ) < specZScore (window.map fun m => m.cpu_usage) latest.cpu_usage ∨
         (zt : ℝ) < specZScore (window.map fun m => m.memory_usage) latest.memory_usage ∨
         (zt : ℝ) < specZScore (window.map fun m => m.gpu_usage) latest.gpu_usage)) ∧
      (r.status = .ANOMALY →
        ∃ zmax,
          zmax ∈
            ((if (zt : ℝ) < specZScore (window.map fun m => m.cpu_usage) latest.cpu_usage
                then [specZScore (window.map fun m => m.cpu_usage) latest.cpu_usage]
                else []) ++
             (if (zt : ℝ) < specZScore (window.map fun m => m.memory_usage) latest.memory_usage
                then [specZScore (window.map fun m => m.memory_usage) latest.memory_usage]
                else []) ++
             (if (zt : ℝ) < specZScore (window.map fun m => m.gpu_usage) latest.gpu_usage
                then [specZScore (window.map fun m => m.gpu_usage) latest.gpu_usage]
                else [])) ∧
          (∀ z ∈
            ((if (zt : ℝ) < specZScore (window.map fun m => m.cpu_usage) latest.cpu_usage
                then [specZScore (window.map fun m => m.cpu_usage) latest.cpu_usage]
                else []) ++
             (if (zt : ℝ) < specZScore (window.map fun m => m.memory_usage) latest.memory_usage
                then [specZScore (window.map fun m => m.memory_usage) latest.memory_usage]
                else []) ++
             (if (zt : ℝ) < specZScore (window.map fun m => m.gpu_usage) latest.gpu_usage
                then [specZScore (window.map fun m => m.gpu_usage) latest.gpu_usage]
                else [])), z ≤ zmax) ∧
          r.confidence_score = roundTo3 (min ((zmax - (zt : ℝ)) / (zt : ℝ)) 1)) ∧
      (r.status = .OK → r.confidence_score = 0) := by
  have hfilter := windowFrom60_eq_filter hs now
  set all := (s rid).filter (fun b => decide (now - 60 ≤ b.timestamp)) with hall
  set m := all.length - (ws.toNat + 1) with hm
  have hws2 : 2 ≤ ws.toNat := by omega
  have hmlt : m < all.length := by omega
  have hnil : all ≠ [] := by
    intro hc
    rw [hc] at hcount
    simp at hcount
  have hlen' : ¬ all.length < ws.toNat + 1 := by omega
  have hwlen : ((all.drop m).dropLast).length = ws.toNat := by
    rw [List.length_dropLast, List.length_drop]
    omega
  have hcore : detectCore all ws zt = specDetect all ws zt :=
    detectCore_eq_specDetect hnil hlen' hws2
  have hwin2 : 2 ≤ ((all.drop m).dropLast).length := by omega
  have hbrc := windowZScore_eq_spec ((all.drop m).dropLast) (all.getLastD default)
    (fun mm => mm.cpu_usage) hwin2
  have hbrm := windowZScore_eq_spec ((all.drop m).dropLast) (all.getLastD default)
    (fun mm => mm.memory_usage) hwin2
  have hbrg := windowZScore_eq_spec ((all.drop m).dropLast) (all.getLastD default)
    (fun mm => mm.gpu_usage) hwin2
  refine ⟨detectCore all ws zt, all.take m, (all.drop m).dropLast, all.getLastD default,
    ?_, ?_, hwlen, ?_, ?_, ?_⟩
  · rw [detect_anomaly, if_neg (by simpa using hb), if_neg hw, if_neg hz, hfilter]
  · exact decompose_take_dropLast_getLastD all m hmlt
  · rw [detectCore, if_neg hnil, if_neg hlen']
    simp only [← hm, metricFields, List.filter_cons, List.filter_nil, hbrc, hbrm, hbrg]
    by_cases c1 : (zt : ℝ) <
        specZScore (((all.drop m).dropLast).map fun mm => mm.cpu_usage)
          (all.getLastD default).cpu_usage <;>
      by_cases c2 : (zt : ℝ) <
          specZScore (((all.drop m).dropLast).map fun mm => mm.memory_usage)
            (all.getLastD default).memory_usage <;>
        by_cases c3 : (zt : ℝ) <
            specZScore (((all.drop m).dropLast).map fun mm => mm.gpu_usage)
              (all.getLastD default).gpu_usage <;>
          (simp only [c1, c2, c3, ite_true, ite_false, List.map_cons, List.map_nil,
            List.cons_ne_nil]
           simp)
  · intro hstat
    rw [hcore, specDetect] at hstat ⊢
    simp only [← hm] at hstat ⊢
    by_cases hA : ((metricFields.filter fun p =>
        if (zt : ℝ) < specZScore (((all.drop m).dropLast).map p.2)
          (p.2 (all.getLastD default)) then true else false).map fun p => p.1) = []
    · rw [if_pos hA] at hstat
      exact absurd hstat (by simp)
    · rw [if_neg hA] at hstat ⊢
      have hAne : (metricFields.filter fun p =>
          if (zt : ℝ) < specZScore (((all.drop m).dropLast).map p.2)
            (p.2 (all.getLastD default)) then true else false) ≠ [] := by
        intro hc
        rw [hc] at hA
        exact hA rfl
      have hne : ((metricFields.filter fun p =>
          if (zt : ℝ) < specZScore (((all.drop m).dropLast).map p.2)
            (p.2 (all.getLastD default)) then true else false).map fun p =>
              specZScore (((all.drop m).dropLast).map p.2) (p.2 (all.getLastD default))) ≠ [] := by
        intro hc
        rw [List.map_eq_nil_iff] at hc
        exact hAne hc
      have hall2 : ∀ z ∈ ((metricFields.filter fun p =>
          if (zt : ℝ) < specZScore (((all.drop m).dropLast).map p.2)
            (p.2 (all.getLastD default)) then true else false).map fun p =>
              specZScore (((all.drop m).dropLast).map p.2) (p.2 (all.getLastD default))),
          (zt : ℝ) < z := by
        intro z hz
        obtain ⟨p, hpA, rfl⟩ := List.mem_map.mp hz
        have hcond := (List.mem_filter.mp hpA).2
        by_cases hP : (zt : ℝ) < specZScore (((all.drop m).dropLast).map p.2)
            (p.2 (all.getLastD default))
        · exact hP
        · rw [if_neg hP] at hcond
          exact absurd hcond (by simp)
      have hL : ((metricFields.filter fun p =>
          if (zt : ℝ) < specZScore (((all.drop m).dropLast).map p.2)
            (p.2 (all.getLastD default)) then true else false).map fun p =>
              specZScore (((all.drop m).dropLast).map p.2) (p.2 (all.getLastD default))) =
          ((if (zt : ℝ) < specZScore (((all.drop m).dropLast).map fun mm => mm.cpu_usage)
              (all.getLastD default).cpu_usage
              then [specZScore (((all.drop m).dropLast).map fun mm => mm.cpu_usage)
                (all.getLastD default).cpu_usage]
              else []) ++
           (if (zt : ℝ) < specZScore (((all.drop m).dropLast).map fun mm => mm.memory_usage)
              (all.getLastD default).memory_usage
              then [specZScore (((all.drop m).dropLast).map fun mm => mm.memory_usage)
                (all.getLastD default).memory_usage]
              else []) ++
           (if (zt : ℝ) < specZScore (((all.drop m).dropLast).map fun mm => mm.gpu_usage)
              (all.getLastD default).gpu_usage
              then [specZScore (((all.drop m).dropLast).map fun mm => mm.gpu_usage)
                (all.getLastD default).gpu_usage]
              else [])) := by
        by_cases c1 : (zt : ℝ) < specZScore (((all.drop m).dropLast).map fun mm => mm.cpu_usage)
            (all.getLastD default).cpu_usage <;>
          by_cases c2 : (zt : ℝ) <
              specZScore (((all.drop m).dropLast).map fun mm => mm.memory_usage)
                (all.getLastD default).memory_usage <;>
            by_cases c3 : (zt : ℝ) <
                specZScore (((all.drop m).dropLast).map fun mm => mm.gpu_usage)
                  (all.getLastD default).gpu_usage <;>
              (simp only [metricFields, List.filter_cons, List.filter_nil, c1, c2, c3,
                ite_true, ite_false, List.map_cons, List.map_nil, List.append_nil,
                List.nil_append, List.append_assoc]
               simp)
      obtain ⟨zmax, hgd, hmem, hbound, hconf⟩ := confidence_formula _ zt hne hall2
      refine ⟨zmax, ?_, ?_, ?_⟩
      · rw [← hL]
        exact hmem
      · intro z hz
        rw [← hL] at hz
        exact hbound z hz
      · rw [← hgd]
        exact hconf
  · intro hstat
    rw [hcore, specDetect] at hstat ⊢
    simp only [← hm] at hstat ⊢
    by_cases hA : ((metricFields.filter fun p =>
        if (zt : ℝ) < specZScore (((all.drop m).dropLast).map p.2)
          (p.2 (all.getLastD default)) then true else false).map fun p => p.1) = []
    · rw [if_pos hA]
    · rw [if_neg hA] at hstat
      exact absurd hstat (by simp)

theorem baselineSampleStd_const (values : List ℚ) (c : ℚ) (hc : ∀ x ∈ values, x = c) :
    baselineSampleStd values = 0 := by
  rcases eq_or_ne values [] with rfl | hne
  · simp [baselineSampleStd]
  · have hlen : values.length ≠ 0 := by
      intro h0
      exact hne (List.length_eq_zero.mp h0)
    have hrep : values.map (fun x : ℚ => (x : ℝ)) =
        List.replicate values.length ((c : ℚ) : ℝ) := by
      refine List.eq_replicate_iff.mpr ⟨by rw [List.length_map], ?_⟩
      intro b hb
      obtain ⟨x, hx, rfl⟩ := List.mem_map.mp hb
      rw [hc x hx]
    have hmean : baselineMean values = (c : ℝ) := by
      rw [baselineMean, hrep, List.sum_replicate, nsmul_eq_mul]
      field_simp
    rw [baselineSampleStd]
    simp only [hmean]
    have hzero : (values.map fun x : ℚ => ((x : ℝ) - (c : ℝ)) ^ 2).sum = 0 := by
      apply List.sum_eq_zero
      intro y hy
      obtain ⟨x, hx, rfl⟩ := List.mem_map.mp hy
      rw [hc x hx]
      ring
    rw [hzero, zero_div, Real.sqrt_zero]

theorem specZScore_const (values : List ℚ) (c v : ℚ) (hc : ∀ x ∈ values, x = c) :
    specZScore values v = 0 := by
  rw [specZScore, if_pos (baselineSampleStd_const values c hc)]

/-- C4: when the baseline window is constant in a metric, the detector
assigns that metric z-score `0` and never flags it, regardless of the
latest value; when all three metrics have constant baselines, the overall
status is `OK` with `anomaly_detected = false`. -/
theorem C4_constant_baseline (s : Store) (now : ℚ) (rid : String) (ws : ℤ) (zt : ℚ)
    (hb : ¬ blankId rid = true) (hw : ¬ ws < 2) (hz : ¬ zt ≤ 0)
    (hs : (s rid).Sorted tsLE)
    (hcount : ws.toNat + 1 ≤
      ((s rid).filter fun b => decide (now - 60 ≤ b.timestamp)).length) :
    ∃ (r : AnomalyResult) (pre window : List MetricEntry) (latest : MetricEntry),
      detect_anomaly s now rid ws zt = .ok r ∧
      (s rid).filter (fun b => decide (now - 60 ≤ b.timestamp)) =
        pre ++ (window ++ [latest]) ∧
      window.length = ws.toNat ∧
      (∀ c : ℚ, (∀ e ∈ window, e.cpu_usage = c) →
        windowZScore window latest (fun mm => mm.cpu_usage) = 0 ∧
          "cpu_usage" ∉ r.anomaly_metrics) ∧
      (∀ c : ℚ, (∀ e ∈ window, e.memory_usage = c) →
        windowZScore window latest (fun mm => mm.memory_usage) = 0 ∧
          "memory_usage" ∉ r.anomaly_metrics) ∧
      (∀ c : ℚ, (∀ e ∈ window, e.gpu_usage = c) →
        windowZScore window latest (fun mm => mm.gpu_usage) = 0 ∧
          "gpu_usage" ∉ r.anomaly_metrics) ∧
      ((∃ c1 c2 c3 : ℚ, (∀ e ∈ window, e.cpu_usage = c1) ∧
          (∀ e ∈ window, e.memory_usage = c2) ∧ (∀ e ∈ window, e.gpu_usage = c3)) →
        r.status = .OK ∧ r.anomaly_detected = false ∧ r.anomaly_metrics = []) := by
  have hfilter := windowFrom60_eq_filter hs now
  set all := (s rid).filter (fun b => decide (now - 60 ≤ b.timestamp)) with hall
  set m := all.length - (ws.toNat + 1) with hm
  have hws2 : 2 ≤ ws.toNat := by omega
  have hmlt : m < all.length := by omega
  have hnil : all ≠ [] := by
    intro hc
    rw [hc] at hcount
    simp at hcount
  have hlen' : ¬ all.length < ws.toNat + 1 := by omega
  have hwlen : ((all.drop m).dropLast).length = ws.toNat := by
    rw [List.length_dropLast, List.length_drop]
    omega
  have hwin2 : 2 ≤ ((all.drop m).dropLast).length := by omega
  have hcore : detectCore all ws zt = specDetect all ws zt :=
    detectCore_eq_specDetect hnil hlen' hws2
  have hztpos : (0 : ℝ) < (zt : ℝ) := by
    rw [show ((0 : ℝ) = ((0 : ℚ) : ℝ)) from by norm_num, Rat.cast_lt]
    exact not_le.mp hz
  have hnot : ∀ p : String × (MetricEntry → ℚ), p ∈ metricFields →
      specZScore (((all.drop m).dropLast).map p.2) (p.2 (all.getLastD default)) = 0 →
      p.1 ∉ (detectCore all ws zt).anomaly_metrics := by
    intro p hp hz0 hmem
    rw [hcore, specDetect] at hmem
    simp only [← hm] at hmem
    by_cases hA : ((metricFields.filter fun q =>
        if (zt : ℝ) < specZScore (((all.drop m).dropLast).map q.2)
          (q.2 (all.getLastD default)) then true else false).map fun q => q.1) = []
    · rw [if_pos hA] at hmem
      simp at hmem
    · rw [if_neg hA] at hmem
      simp only at hmem
      obtain ⟨q, hqA, hq1⟩ := List.mem_map.mp hmem
      have hqmf := (List.mem_filter.mp hqA).1
      have hqcond := (List.mem_filter.mp hqA).2
      simp only at hqcond
      simp only [metricFields, List.mem_cons, List.not_mem_nil, or_false] at hqmf hp
      rcases hqmf with rfl | rfl | rfl <;> rcases hp with rfl | rfl | rfl <;>
        first
          | exact absurd hq1 (by decide)
          | (rw [hz0] at hqcond
             rw [if_neg (not_lt.mpr (le_of_lt hztpos))] at hqcond
             exact absurd hqcond (by simp))
  refine ⟨detectCore all ws zt, all.take m, (all.drop m).dropLast, all.getLastD default,
    ?_, ?_, hwlen, ?_, ?_, ?_, ?_⟩
  · rw [detect_anomaly, if_neg (by simpa using hb), if_neg hw, if_neg hz, hfilter]
  · exact decompose_take_dropLast_getLastD all m hmlt
  · intro c hc
    have hz0 : specZScore (((all.drop m).dropLast).map fun mm => mm.cpu_usage)
        ((all.getLastD default).cpu_usage) = 0 := by
      refine specZScore_const _ c _ ?_
      intro x hx
      obtain ⟨e, he, rfl⟩ := List.mem_map.mp hx
      exact hc e he
    exact ⟨by rw [windowZScore_eq_spec _ _ _ hwin2]; exact hz0,
      hnot ("cpu_usage", fun mm => mm.cpu_usage) (by simp [metricFields]) hz0⟩
  · intro c hc
    have hz0 : specZScore (((all.drop m).dropLast).map fun mm => mm.memory_usage)
        ((all.getLastD default).memory_usage) = 0 := by
      refine specZScore_const _ c _ ?_
      intro x hx
      obtain ⟨e, he, rfl⟩ := List.mem_map.mp hx
      exact hc e he
    exact ⟨by rw [windowZScore_eq_spec _ _ _ hwin2]; exact hz0,
      hnot ("memory_usage", fun mm => mm.memory_usage) (by simp [metricFields]) hz0⟩
  · intro c hc
    have hz0 : specZScore (((all.drop m).dropLast).map fun mm => mm.gpu_usage)
        ((all.getLastD default).gpu_usage) = 0 := by
      refine specZScore_const _ c _ ?_
      intro x hx
      obtain ⟨e, he, rfl⟩ := List.mem_map.mp hx
      exact hc e he
    exact ⟨by rw [windowZScore_eq_spec _ _ _ hwin2]; exact hz0,
      hnot ("gpu_usage", fun mm => mm.gpu_usage) (by simp [metricFields]) hz0⟩
  · rintro ⟨c1, c2, c3, h1, h2, h3⟩
    have hA : (metricFields.filter fun p =>
        if (zt : ℝ) < specZScore (((all.drop m).dropLast).map p.2)
          (p.2 (all.getLastD default)) then true else false) = [] := by
      refine List.filter_eq_nil_iff.mpr ?_
      intro p hp
      simp only [metricFields, List.mem_cons, List.not_mem_nil, or_false] at hp
      have hz0 : specZScore (((all.drop m).dropLast).map p.2)
          (p.2 (all.getLastD default)) = 0 := by
        rcases hp with rfl | rfl | rfl
        · exact specZScore_const _ c1 _ (by
            intro x hx
            obtain ⟨e, he, rfl⟩ := List.mem_map.mp hx
            exact h1 e he)
        · exact specZScore_const _ c2 _ (by
            intro x hx
            obtain ⟨e, he, rfl⟩ := List.mem_map.mp hx
            exact h2 e he)
        · exact specZScore_const _ c3 _ (by
            intro x hx
            obtain ⟨e, he, rfl⟩ := List.mem_map.mp hx
            exact h3 e he)
      rw [hz0, if_neg (by simp [not_lt.mpr (le_of_lt hztpos)])]
      simp
    rw [hcore, specDetect]
    simp only [← hm]
    rw [hA]
    simp

/-- The anomaly signal the risk scorer derives from the detector run with
its default parameters: the confidence on `ANOMALY`, `0` on `OK` or
`INSUFFICIENT_DATA`. -/
noncomputable def anomalySignal (s : Store) (now : ℚ) (rid : String) : ℝ :=
  if (detectCore (windowFrom (s rid) now 60) 10 2).status = .ANOMALY then
    (detectCore (windowFrom (s rid) now 60) 10 2).confidence_score
  else 0

/-- C7: with valid arguments and at least one sample in the lookback
window, `computeRisk` returns status `OK`,
`risk_score = min(0.4·anomaly_signal + 0.6·breach_rate, 1)` rounded to 3
decimals — where the anomaly signal is the default-parameter detector's
confidence on `ANOMALY` and `0` on `OK`/`INSUFFICIENT_DATA`, and the
breach rate is the number of (metric, sample) threshold exceedances over
`3 ×` the sample count — and the risk level is `LOW`/`MEDIUM`/`HIGH` by
the `0.3`/`0.6` boundaries on the rounded score. -/
theorem C7_risk_formula (s : Store) (now : ℚ) (rid : String) (lb : ℤ)
    (ct mt gt : ℚ)
    (hb : ¬ blankId rid = true) (hl : ¬ lb ≤ 0)
    (hs : (s rid).Sorted tsLE)
    (hne : (s rid).filter (fun b => decide (now - (lb : ℚ) ≤ b.timestamp)) ≠ []) :
    ∃ (r : SLARiskResult) (ar : AnomalyResult),
      compute_sla_risk s now rid lb ct mt gt = .ok r ∧
      detect_anomaly s now rid 10 2 = .ok ar ∧
      r.status = .OK ∧
      r.risk_score = roundTo3 (min
        ((if ar.status = .ANOMALY then ar.confidence_score else 0) * 0.4 +
          ((((s rid).filter fun b => decide (now - (lb : ℚ) ≤ b.timestamp)).countP
              (fun e => decide (ct < e.cpu_usage)) +
            ((s rid).filter fun b => decide (now - (lb : ℚ) ≤ b.timestamp)).countP
              (fun e => decide (mt < e.memory_usage)) +
            ((s rid).filter fun b => decide (now - (lb : ℚ) ≤ b.timestamp)).countP
              (fun e => decide (gt < e.gpu_usage)) : ℕ) : ℝ) /
            (3 * (((s rid).filter fun b =>
              decide (now - (lb : ℚ) ≤ b.timestamp)).length : ℝ)) * 0.6) 1) ∧
      r.risk_level = (if r.risk_score < 0.3 then RiskLevel.LOW
        else if r.risk_score < 0.6 then RiskLevel.MEDIUM else RiskLevel.HIGH) := by
  have hfilter := windowFrom_eq_filter hs now lb
  have hne' : windowFrom (s rid) now lb ≠ [] := by
    rw [hfilter]
    exact hne
  have hlenpos : 0 < (windowFrom (s rid) now lb).length := by
    cases hwf : windowFrom (s rid) now lb with
    | nil => exact absurd hwf hne'
    | cons a l => simp
  have hbreach : ((_calculate_threshold_breach_rate (windowFrom (s rid) now lb)
      ct mt gt : ℚ) : ℝ) =
      (((windowFrom (s rid) now lb).countP (fun e => decide (ct < e.cpu_usage)) +
        (windowFrom (s rid) now lb).countP (fun e => decide (mt < e.memory_usage)) +
        (windowFrom (s rid) now lb).countP (fun e => decide (gt < e.gpu_usage)) : ℕ) : ℝ) /
        (3 * ((windowFrom (s rid) now lb).length : ℝ)) := by
    rw [_calculate_threshold_breach_rate, if_neg hne']
    push_cast
    rw [div_eq_div_iff]
    · ring
    · have : (0 : ℝ) < ((windowFrom (s rid) now lb).length : ℝ) := by
        exact_mod_cast hlenpos
      linarith
    · have : (0 : ℝ) < ((windowFrom (s rid) now lb).length : ℝ) := by
        exact_mod_cast hlenpos
      linarith
  have hdet : detect_anomaly s now rid 10 2 =
      .ok (detectCore (windowFrom (s rid) now 60) 10 2) := by
    rw [detect_anomaly, if_neg (by simpa using hb), if_neg (by decide),
      if_neg (by norm_num)]
  rw [compute_sla_risk, if_neg (by simpa using hb), if_neg hl]
  simp only [if_neg hne']
  refine ⟨_, _, rfl, hdet, rfl, ?_, rfl⟩
  simp only
  rw [hbreach, hfilter]

theorem roundHalfEven_bounds (x : ℝ) :
    ⌊x⌋ ≤ roundHalfEven x ∧ roundHalfEven x ≤ ⌊x⌋ + 1 := by
  rw [roundHalfEven]
  split_ifs <;> omega

theorem roundHalfEven_le_mono {x y : ℝ} (hxy : x ≤ y) :
    roundHalfEven x ≤ roundHalfEven y := by
  have hfl : ⌊x⌋ ≤ ⌊y⌋ := Int.floor_le_floor hxy
  have hbx := roundHalfEven_bounds x
  have hby := roundHalfEven_bounds y
  rcases lt_or_eq_of_le hfl with hlt | heq
  · omega
  · have hfr : Int.fract x ≤ Int.fract y := by
      rw [Int.fract, Int.fract, heq]
      linarith
    rw [roundHalfEven, roundHalfEven, heq]
    split_ifs <;> first | omega | linarith

theorem roundTo3_le_mono {x y : ℝ} (hxy : x ≤ y) : roundTo3 x ≤ roundTo3 y := by
  rw [roundTo3, roundTo3]
  have h1 : roundHalfEven (x * 1000) ≤ roundHalfEven (y * 1000) :=
    roundHalfEven_le_mono (by linarith)
  have h2 : ((roundHalfEven (x * 1000) : ℤ) : ℝ) ≤ ((roundHalfEven (y * 1000) : ℤ) : ℝ) := by
    exact_mod_cast h1
  linarith

/-- C8: holding the anomaly signal fixed, the risk score is monotone in
the threshold-breach rate — two runs with equal anomaly signals and
ordered breach rates produce risk scores in the same order (the clamp at
1 and the 3-decimal rounding preserve monotonicity). -/
theorem C8_risk_monotonicity (s1 s2 : Store) (now1 now2 : ℚ) (rid1 rid2 : String)
    (lb1 lb2 : ℤ) (ct1 mt1 gt1 ct2 mt2 gt2 : ℚ)
    (hb1 : ¬ blankId rid1 = true) (hb2 : ¬ blankId rid2 = true)
    (hl1 : ¬ lb1 ≤ 0) (hl2 : ¬ lb2 ≤ 0)
    (hne1 : windowFrom (s1 rid1) now1 lb1 ≠ [])
    (hne2 : windowFrom (s2 rid2) now2 lb2 ≠ [])
    (hsig : anomalySignal s1 now1 rid1 = anomalySignal s2 now2 rid2)
    (hbr : _calculate_threshold_breach_rate (windowFrom (s1 rid1) now1 lb1) ct1 mt1 gt1 ≤
      _calculate_threshold_breach_rate (windowFrom (s2 rid2) now2 lb2) ct2 mt2 gt2) :
    ∃ (r1 r2 : SLARiskResult),
      compute_sla_risk s1 now1 rid1 lb1 ct1 mt1 gt1 = .ok r1 ∧
      compute_sla_risk s2 now2 rid2 lb2 ct2 mt2 gt2 = .ok r2 ∧
      r1.risk_score ≤ r2.risk_score := by
  rw [compute_sla_risk, if_neg hb1, if_neg hl1]
  simp only [if_neg hne1]
  rw [compute_sla_risk, if_neg hb2, if_neg hl2]
  simp only [if_neg hne2]
  refine ⟨_, _, rfl, rfl, ?_⟩
  simp only
  have hsig' : (if (detectCore (windowFrom (s1 rid1) now1 60) 10 2).status =
        AnomalyStatus.ANOMALY then
      (detectCore (windowFrom (s1 rid1) now1 60) 10 2).confidence_score else 0) =
      (if (detectCore (windowFrom (s2 rid2) now2 60) 10 2).status =
        AnomalyStatus.ANOMALY then
      (detectCore (windowFrom (s2 rid2) now2 60) 10 2).confidence_score else 0) := by
    exact hsig
  rw [hsig']
  refine roundTo3_le_mono (min_le_min ?_ (le_refl 1))
  have hbr' : ((_calculate_threshold_breach_rate (windowFrom (s1 rid1) now1 lb1)
      ct1 mt1 gt1 : ℚ) : ℝ) ≤
      ((_calculate_threshold_breach_rate (windowFrom (s2 rid2) now2 lb2)
      ct2 mt2 gt2 : ℚ) : ℝ) := by
    exact_mod_cast hbr
  nlinarith [hbr']

/-- Four samples with cpu `60, 50, 40, 75`, for instantiating the z-score
analysis. -/
def seriesC3 : List MetricEntry :=
  [{ resource_id := "r", cpu_usage := 60, memory_usage := 0, gpu_usage := 0, timestamp := 1 },
   { resource_id := "r", cpu_usage := 50, memory_usage := 0, gpu_usage := 0, timestamp := 2 },
   { resource_id := "r", cpu_usage := 40, memory_usage := 0, gpu_usage := 0, timestamp := 3 },
   { resource_id := "r", cpu_usage := 75, memory_usage := 0, gpu_usage := 0, timestamp := 4 }]

/-- Witness for C3 at a concrete 4-sample store with `window_size = 3`. -/
theorem C3_zscore_analysis_witness :
    ∃ (r : AnomalyResult) (pre window : List MetricEntry) (latest : MetricEntry),
      detect_anomaly (storeOf "r" seriesC3) 4 "r" 3 2 = .ok r ∧
      ((storeOf "r" seriesC3) "r").filter
        (fun b => decide ((4 : ℚ) - 60 ≤ b.timestamp)) = pre ++ (window ++ [latest]) ∧
      window.length = (3 : ℤ).toNat ∧
      (r.status = .ANOMALY ∨ r.status = .OK) := by
  obtain ⟨r, pre, window, latest, h1, h2, h3, _, h5, _, _⟩ :=
    C3_zscore_analysis (storeOf "r" seriesC3) 4 "r" 3 2 (by decide) (by decide)
      (by norm_num)
      (by norm_num [storeOf, seriesC3, List.sorted_cons, tsLE])
      (by norm_num [storeOf, seriesC3, List.filter]; decide)
  exact ⟨r, pre, window, latest, h1, h2, h3, h5⟩

/-- The constant sample of the C4 baseline: all three metrics `50`. -/
def entryC4base : MetricEntry :=
  { resource_id := "r", cpu_usage := 50, memory_usage := 50, gpu_usage := 50, timestamp := 0 }

/-- The deviating latest sample of the C4 scenario: all three metrics
`80`. -/
def entryC4latest : MetricEntry :=
  { resource_id := "r", cpu_usage := 80, memory_usage := 80, gpu_usage := 80, timestamp := 1 }

/-- Baseline `[50] × 10` followed by a latest value of `80`. -/
def seriesC4 : List MetricEntry :=
  List.replicate 10 entryC4base ++ [entryC4latest]

/-- Witness for C4: baseline `[50] × 10`, latest `= 80` yields status `OK`
with no anomaly. -/
theorem C4_constant_baseline_witness :
    ∃ r : AnomalyResult,
      detect_anomaly (storeOf "r" seriesC4) 1 "r" 10 2 = .ok r ∧
      r.status = .OK ∧ r.anomaly_detected = false ∧ r.anomaly_metrics = [] := by
  have hsorted : (storeOf "r" seriesC4 "r").Sorted tsLE := by
    have : storeOf "r" seriesC4 "r" = seriesC4 := by simp [storeOf]
    rw [this, seriesC4]
    refine List.pairwise_append.mpr
      ⟨List.pairwise_replicate.mpr (Or.inr (le_refl _)), List.pairwise_singleton _ _, ?_⟩
    intro a ha b hb
    rw [List.eq_of_mem_replicate ha, List.mem_singleton.mp hb]
    show (0 : ℚ) ≤ 1
    norm_num
  have hfl : (storeOf "r" seriesC4 "r").filter
      (fun b => decide ((1 : ℚ) - 60 ≤ b.timestamp)) = seriesC4 := by
    have hstore : storeOf "r" seriesC4 "r" = seriesC4 := by simp [storeOf]
    rw [hstore]
    refine List.filter_eq_self.mpr ?_
    intro a ha
    rw [seriesC4, List.mem_append] at ha
    simp only [decide_eq_true_eq]
    rcases ha with ha | ha
    · rw [List.eq_of_mem_replicate ha]
      show (1 : ℚ) - 60 ≤ 0
      norm_num
    · rw [List.mem_singleton.mp ha]
      show (1 : ℚ) - 60 ≤ 1
      norm_num
  obtain ⟨r, pre, window, latest, h1, h2, h3, _, _, _, h7⟩ :=
    C4_constant_baseline (storeOf "r" seriesC4) 1 "r" 10 2 (by decide) (by decide)
      (by norm_num) hsorted
      (by rw [hfl, seriesC4, List.length_append, List.length_replicate]; decide)
  rw [hfl] at h2
  have hlen := congrArg List.length h2
  rw [seriesC4, List.length_append, List.length_replicate, List.length_append,
    List.length_append, List.length_singleton, List.length_singleton, h3] at hlen
  have hpre : pre = [] := by
    rw [List.length_eq_zero.mp (by omega : pre.length = 0)]
  rw [hpre, List.nil_append] at h2
  have hwin : List.replicate 10 entryC4base = window ∧ [entryC4latest] = [latest] := by
    refine List.append_inj ?_ ?_
    · rw [← seriesC4, h2]
    · rw [List.length_replicate, h3]
      decide
  refine ⟨r, h1, h7 ⟨50, 50, 50, ?_, ?_, ?_⟩⟩ <;>
    · intro e he
      rw [← hwin.1] at he
      rw [List.eq_of_mem_replicate he]
      rfl

/-- Rounding to 3 decimals fixes every integer multiple of `1/1000`. -/
theorem roundTo3_int_div_1000 (z : ℤ) : roundTo3 ((z : ℝ) / 1000) = (z : ℝ) / 1000 := by
  rw [roundTo3]
  have h1 : (z : ℝ) / 1000 * 1000 = (z : ℝ) := by
    field_simp
  rw [h1, roundHalfEven, Int.fract_intCast, if_pos (by norm_num), Int.floor_intCast]

/-- Four samples realising the spec's worked example: baseline cpu values
`60, 50, 40` (mean `50`, sample standard deviation `10`), latest `75`. -/
def seriesC5 : List MetricEntry :=
  [{ resource_id := "r", cpu_usage := 60, memory_usage := 0, gpu_usage := 0, timestamp := 1 },
   { resource_id := "r", cpu_usage := 50, memory_usage := 0, gpu_usage := 0, timestamp := 2 },
   { resource_id := "r", cpu_usage := 40, memory_usage := 0, gpu_usage := 0, timestamp := 3 },
   { resource_id := "r", cpu_usage := 75, memory_usage := 0, gpu_usage := 0, timestamp := 4 }]

/-- Witness for C5, the spec's worked example: baseline mean 50 and sample
std 10, latest 75, threshold 2 give `ANOMALY` with confidence `0.25`. -/
theorem C5_confidence_formula_witness :
    ∃ r : AnomalyResult,
      detect_anomaly (storeOf "r" seriesC5) 4 "r" 3 2 = .ok r ∧
      r.status = .ANOMALY ∧ r.confidence_score = 0.25 := by
  obtain ⟨r, pre, window, latest, h1, h2, h3, hiff, hconf, _⟩ :=
    C5_confidence_formula (storeOf "r" seriesC5) 4 "r" 3 2 (by decide) (by decide)
      (by norm_num)
      (by norm_num [storeOf, seriesC5, List.sorted_cons, tsLE])
      (by norm_num [storeOf, seriesC5, List.filter]; decide)
  have hfl : ((storeOf "r" seriesC5) "r").filter
      (fun b => decide ((4 : ℚ) - 60 ≤ b.timestamp)) = seriesC5 := by
    norm_num [storeOf, seriesC5, List.filter]
  rw [hfl] at h2
  have hlen := congrArg List.length h2
  rw [List.length_append, List.length_append, List.length_singleton, h3] at hlen
  have hpre : pre = [] := by
    have h4 : seriesC5.length = 4 := rfl
    rw [h4] at hlen
    exact List.length_eq_zero.mp (by omega)
  rw [hpre, List.nil_append] at h2
  have hsplit : seriesC5.take 3 = window ∧ seriesC5.drop 3 = [latest] := by
    refine List.append_inj ?_ ?_
    · rw [List.take_append_drop, h2]
    · rw [h3]
      decide
  have hwin : window = seriesC5.take 3 := hsplit.1.symm
  have hlat : latest = seriesC5.getLast (by decide) := by
    have := hsplit.2
    rw [show seriesC5.drop 3 = [seriesC5.getLast (by decide)] from by decide] at this
    exact (List.cons.injEq _ _ _ _ ▸ this).1.symm
  subst hwin
  subst hlat
  have hmean : baselineMean ([60, 50, 40] : List ℚ) = 50 := by
    rw [baselineMean]
    norm_num [List.map_cons, List.map_nil, List.sum_cons, List.sum_nil]
  have harg : ((([60, 50, 40] : List ℚ).map
      fun x : ℚ => ((x : ℝ) - baselineMean ([60, 50, 40] : List ℚ)) ^ 2).sum /
      (((([60, 50, 40] : List ℚ)).length : ℝ) - 1)) = 100 := by
    simp only [hmean]
    norm_num [List.map_cons, List.map_nil, List.sum_cons, List.sum_nil]
  have hstd : baselineSampleStd ([60, 50, 40] : List ℚ) = 10 := by
    rw [baselineSampleStd, harg, show (100 : ℝ) = 10 ^ 2 by norm_num,
      Real.sqrt_sq (by norm_num)]
  have hzc : specZScore ([60, 50, 40] : List ℚ) (75 : ℚ) = 2.5 := by
    rw [specZScore, if_neg (by rw [hstd]; norm_num), hstd, hmean]
    rw [show ((75 : ℚ) : ℝ) - (50 : ℝ) = 25 by norm_num,
      abs_of_nonneg (by norm_num : (0 : ℝ) ≤ 25)]
    norm_num
  have hzero : ∀ x ∈ ([0, 0, 0] : List ℚ), x = 0 := by
    intro x hx
    simpa using hx
  have hzc' : specZScore ((seriesC5.take 3).map fun m => m.cpu_usage)
      (seriesC5.getLast (by decide)).cpu_usage = 2.5 := hzc
  have hzm' : specZScore ((seriesC5.take 3).map fun m => m.memory_usage)
      (seriesC5.getLast (by decide)).memory_usage = 0 := specZScore_const _ 0 _ hzero
  have hzg' : specZScore ((seriesC5.take 3).map fun m => m.gpu_usage)
      (seriesC5.getLast (by decide)).gpu_usage = 0 := specZScore_const _ 0 _ hzero
  have hstatus : r.status = .ANOMALY := by
    rw [hiff, hzc']
    left
    norm_num
  obtain ⟨zmax, hmem, _, hcs⟩ := hconf hstatus
  rw [hzc', hzm', hzg'] at hmem
  rw [if_pos (show ((2 : ℚ) : ℝ) < 2.5 from by norm_num),
    if_neg (show ¬ ((2 : ℚ) : ℝ) < (0 : ℝ) from by norm_num)] at hmem
  have hzmax : zmax = 2.5 := by
    simpa using hmem
  rw [hzmax] at hcs
  rw [show ((2.5 : ℝ) - ((2 : ℚ) : ℝ)) / ((2 : ℚ) : ℝ) = 0.25 by norm_num] at hcs
  rw [min_eq_left (by norm_num)] at hcs
  rw [show (0.25 : ℝ) = ((250 : ℤ) : ℝ) / 1000 by norm_num, roundTo3_int_div_1000] at hcs
  refine ⟨r, h1, hstatus, ?_⟩
  rw [hcs]
  norm_num

/-- A single low-utilisation sample, for the risk-formula witness. -/
def seriesC7 : List MetricEntry :=
  [{ resource_id := "r", cpu_usage := 10, memory_usage := 10, gpu_usage := 10, timestamp := 1 }]

/-- Witness for C7 at a one-sample store with the default thresholds. -/
theorem C7_risk_formula_witness :
    ∃ (r : SLARiskResult) (ar : AnomalyResult),
      compute_sla_risk (storeOf "r" seriesC7) 1 "r" 10 80 85 90 = .ok r ∧
      detect_anomaly (storeOf "r" seriesC7) 1 "r" 10 2 = .ok ar ∧
      r.status = .OK := by
  obtain ⟨r, ar, h1, h2, h3, _, _⟩ :=
    C7_risk_formula (storeOf "r" seriesC7) 1 "r" 10 80 85 90 (by decide) (by decide)
      (by norm_num [storeOf, seriesC7, List.sorted_cons])
      (by norm_num [storeOf, seriesC7, List.filter])
  exact ⟨r, ar, h1, h2, h3⟩

/-- A single sample, for the monotonicity witness. -/
def seriesC8 : List MetricEntry :=
  [{ resource_id := "r", cpu_usage := 90, memory_usage := 90, gpu_usage := 95, timestamp := 1 }]

/-- Witness for C8: two identical runs have equal anomaly signals and
breach rates, and the risk scores are (equal hence) ordered. -/
theorem C8_risk_monotonicity_witness :
    ∃ (r1 r2 : SLARiskResult),
      compute_sla_risk (storeOf "r" seriesC8) 1 "r" 10 80 85 90 = .ok r1 ∧
      compute_sla_risk (storeOf "r" seriesC8) 1 "r" 10 80 85 90 = .ok r2 ∧
      r1.risk_score ≤ r2.risk_score := by
  have hs8 : ((storeOf "r" seriesC8) "r").Sorted tsLE := by
    norm_num [storeOf, seriesC8, List.sorted_cons]
  have hne8 : windowFrom ((storeOf "r" seriesC8) "r") 1 10 ≠ [] := by
    rw [windowFrom_eq_filter hs8]
    norm_num [storeOf, seriesC8, List.filter]
  exact C8_risk_monotonicity (storeOf "r" seriesC8) (storeOf "r" seriesC8) 1 1 "r" "r"
    10 10 80 85 90 80 85 90 (by decide) (by decide) (by decide) (by decide)
    hne8 hne8 rfl (le_refl _)

end InfraMind
